import Mathlib

/-!
Verification development for the Help Scout MCP server (GravityKit/help-scout-mcp).

Shallow embedding of the search-aggregation, pagination, reply-formatting,
redaction and validation logic of src/tools/index.ts (the ToolHandler class),
src/utils/config.ts and src/schema/types.ts.

Modelling conventions, used throughout:
  - ISO-8601 date strings that the source parses with new Date(s).getTime()
    are modelled as their epoch-millisecond value (an Int).  Every comparison
    the source performs on such dates goes through getTime(), so order is
    preserved by this encoding.
  - JavaScript Promise.allSettled joins are modelled by passing each branch
    outcome as an explicit Except value: a fulfilled branch is Except.ok, a
    rejected branch is Except.error carrying the rejection reason.
  - The process-wide config object is modelled by passing the relevant flag
    (allowPii, allowSendReply, compact spacing) as an explicit argument.
  - Thrown JavaScript exceptions are modelled with Except.
-/

namespace HelpScoutMcp

/-- Error taxonomy of the server (src/schema/types.ts ErrorSchema.code). -/
inductive ErrorCode where
  | INVALID_INPUT
  | NOT_FOUND
  | UNAUTHORIZED
  | RATE_LIMIT
  | UPSTREAM_ERROR
deriving DecidableEq, Repr

/-- An ApiError as recognised by isApiError: a code from the taxonomy plus a
message. -/
structure ApiError where
  code : ErrorCode
  message : String
deriving DecidableEq, Repr

/-- A rejection reason of a settled promise branch: either an ApiError
(isApiError holds) or any other thrown value (modelled by its message). -/
inductive Rejection where
  | api (e : ApiError)
  | other (message : String)
deriving DecidableEq, Repr

/-- The slice of a Help Scout conversation record that the search-aggregation
logic inspects: its numeric id and its createdAt instant (epoch ms of the
parsed ISO string). -/
structure Conversation where
  id : Nat
  createdAt : Int
deriving DecidableEq, Repr

/-- The slice of a Help Scout thread record used by transcripts and getThreads
(src/schema/types.ts ThreadSchema): type, state, status, body, createdAt
(epoch ms), the two optional person records and the attachment count. -/
structure Person where
  first : String
  last : String
deriving DecidableEq, Repr

structure Thread where
  id : Nat
  ttype : String
  state : String
  status : String
  body : String
  createdAt : Int
  customer : Option Person
  createdBy : Option Person
  attachmentsCount : Nat
deriving DecidableEq, Repr

/-- Sort relation used by the descending createdAt sorts of the source
(comparator (a, b) => new Date(b.createdAt).getTime() - new Date(a.createdAt).getTime()). -/
def byCreatedDesc (a b : Conversation) : Prop := b.createdAt ≤ a.createdAt

instance : DecidableRel byCreatedDesc := fun a b =>
  inferInstanceAs (Decidable (b.createdAt ≤ a.createdAt))

instance : IsTotal Conversation byCreatedDesc :=
  ⟨fun a b => (Int.le_total b.createdAt a.createdAt)⟩

instance : IsTrans Conversation byCreatedDesc :=
  ⟨fun _ _ _ hab hbc => le_trans hbc hab⟩

/-- Sort relation of the ascending thread sort in buildTranscript. -/
def byThreadCreatedAsc (a b : Thread) : Prop := a.createdAt ≤ b.createdAt

instance : DecidableRel byThreadCreatedAsc := fun a b =>
  inferInstanceAs (Decidable (a.createdAt ≤ b.createdAt))

instance : IsTotal Thread byThreadCreatedAsc :=
  ⟨fun a b => Int.le_total a.createdAt b.createdAt⟩

instance : IsTrans Thread byThreadCreatedAsc :=
  ⟨fun _ _ _ hab hbc => le_trans hab hbc⟩

/-- Stable sort by createdAt descending, as performed by
conversations.sort((a, b) => dateB - dateA) in the source.  insertionSort with
byCreatedDesc is stable in the same way as the runtime sort. -/
def sortByCreatedDesc (l : List Conversation) : List Conversation :=
  List.insertionSort byCreatedDesc l

/-- A failed-status marker pushed by the multi-status list search
(failedStatuses entry: { status, message, code }). -/
structure FailedStatus where
  status : String
  message : String
  code : ErrorCode
deriving DecidableEq, Repr

/-- Pagination metadata.  The source builds plain JSON objects with varying
fields; each construction site below sets exactly the fields the source sets
and leaves the others none / empty. -/
structure Pagination where
  returned : Option Nat := none
  totalResults : Option Nat := none
  totalAvailable : Option Nat := none
  errors : List FailedStatus := []
  note : Option String := none
deriving DecidableEq, Repr

/-- applyCreatedBeforeFilter result shape. -/
structure FilterOutcome where
  filtered : List Conversation
  wasFiltered : Bool
  removedCount : Nat
deriving DecidableEq, Repr

/-- applyCreatedBeforeFilter (tools/index.ts): keeps conversations with
new Date(conv.createdAt) < beforeDate.  The beforeDate argument is the parsed
createdBefore bound; an unparsable bound throws before this point and is not
modelled.  The context argument of the source only feeds a log line and is
dropped. -/
def applyCreatedBeforeFilter (conversations : List Conversation) (beforeDate : Int) :
    FilterOutcome :=
  let filtered := conversations.filter (fun conv => conv.createdAt < beforeDate)
  let removedCount := conversations.length - filtered.length
  { filtered := filtered, wasFiltered := removedCount > 0, removedCount := removedCount }

/-- buildFilteredPagination (tools/index.ts), specialised to the wasFiltered =
true branch in which its one call site uses it.  The apiTotalElements argument
is the totalElements field read off the apiPage argument of the source; the
call site passes the single-status pagination object { returned,
totalAvailable }, which has no totalElements field, so the value received
there is none.  The note text of the source interpolates the two counts; the
counts are carried in the fields here and the note is kept as fixed text. -/
def buildFilteredPagination (filteredCount : Nat) (apiTotalElements : Option Nat) :
    Pagination :=
  { totalResults := some filteredCount
    totalAvailable := apiTotalElements
    note := some "Results filtered client-side by createdBefore." }

/-- Result of the per-status keyword search helper searchSingleStatus:
{ status, totalCount, conversations }. -/
structure StatusResult where
  status : String
  totalCount : Nat
  conversations : List Conversation
deriving DecidableEq, Repr

/-- The pure tail of searchSingleStatus (tools/index.ts), applied to the
conversations fetched for one status: the client-side createdBefore filter,
the slice to limitPerStatus, and the totalCount choice
(filteredByDate ? conversations.length : apiTotalElements).  The verbose
flag of the source only switches between raw and slimmed record shapes and is
not modelled. -/
def searchSingleStatusPost (status : String) (fetched : List Conversation)
    (apiTotalElements : Nat) (createdBefore : Option Int) (limitPerStatus : Nat) :
    StatusResult :=
  let step1 := match createdBefore with
    | none => (fetched, false)
    | some bound =>
        let r := applyCreatedBeforeFilter fetched bound
        (r.filtered, r.wasFiltered)
  let conversations := if limitPerStatus < step1.1.length
    then step1.1.take limitPerStatus else step1.1
  { status := status
    totalCount := if step1.2 then conversations.length else apiTotalElements
    conversations := conversations }

/-- Result of the client-side createdBefore step of searchConversationsList. -/
structure FilteredListResult where
  conversations : List Conversation
  pagination : Pagination
  clientSideFiltered : Bool
deriving DecidableEq, Repr

/-- The createdBefore tail of searchConversationsList (tools/index.ts): filter
the already-merged conversations and, when records were removed, rebuild the
pagination object.  singleStatus mirrors the input.status test of the source:
in the single-status branch the source calls buildFilteredPagination with the
{ returned, totalAvailable } pagination object, whose totalElements field is
absent, hence the none passed on here; in the multi-status branch it rebuilds
the pagination by hand, keeping totalAvailable and errors of the merged
pagination. -/
def listApplyCreatedBefore (conversations : List Conversation)
    (pagination : Pagination) (singleStatus : Bool) (createdBefore : Option Int) :
    FilteredListResult :=
  match createdBefore with
  | none => ⟨conversations, pagination, false⟩
  | some bound =>
    let fr := applyCreatedBeforeFilter conversations bound
    if fr.wasFiltered then
      if singleStatus then
        ⟨fr.filtered, buildFilteredPagination fr.filtered.length none, true⟩
      else
        ⟨fr.filtered,
          { totalResults := some fr.filtered.length
            totalAvailable := pagination.totalAvailable
            errors := pagination.errors
            note := some "Client-side createdBefore filter applied to merged results." },
          true⟩
    else ⟨fr.filtered, pagination, false⟩

/-! ## Fan-out joins: multi-status merges and transcript enrichment -/

/-- Classification of a settled branch outcome: isAbort is true exactly when
the source rethrows the rejection (a non-ApiError value, or an ApiError with
code UNAUTHORIZED or INVALID_INPUT); benign API failures and fulfilled
branches give false. -/
def isAbort {α : Type} : Except Rejection α → Bool
  | Except.error (Rejection.api e) =>
      e.code == ErrorCode.UNAUTHORIZED || e.code == ErrorCode.INVALID_INPUT
  | Except.error (Rejection.other _) => true
  | Except.ok _ => false

/-- Aggregate result of searchConversationsKeyword. -/
structure StatusGroup where
  status : String
  count : Nat
  totalAvailable : Nat
  conversations : List Conversation
deriving DecidableEq, Repr

structure KeywordSearchResult where
  totalConversationsFound : Nat
  totalAvailable : Nat
  resultsByStatus : List StatusGroup
deriving DecidableEq, Repr

/-- The Promise.allSettled fold of searchConversationsKeyword (tools/index.ts):
walk the per-status outcomes in order; a fulfilled branch is pushed as is, a
rejected branch rethrows when it is not an ApiError or its code is
UNAUTHORIZED or INVALID_INPUT, and otherwise degrades to
{ status, totalCount: 0, conversations: [] }. -/
def keywordMergeGo :
    List (String × Except Rejection StatusResult) → Except Rejection (List StatusResult)
  | [] => Except.ok []
  | (_, Except.ok r) :: rest => (keywordMergeGo rest).map (fun l => r :: l)
  | (st, Except.error rej) :: rest =>
    match rej with
    | Rejection.other m => Except.error (Rejection.other m)
    | Rejection.api e =>
      if e.code = ErrorCode.UNAUTHORIZED ∨ e.code = ErrorCode.INVALID_INPUT then
        Except.error (Rejection.api e)
      else
        (keywordMergeGo rest).map
          (fun l => { status := st, totalCount := 0, conversations := [] } :: l)

/-- searchConversationsKeyword after the per-status fetches have settled: fold
the outcomes, then compute the totals and the resultsByStatus groups of the
returned JSON. -/
def keywordMerge (branches : List (String × Except Rejection StatusResult)) :
    Except Rejection KeywordSearchResult :=
  (keywordMergeGo branches).map (fun allResults =>
    { totalConversationsFound :=
        (allResults.map (fun r => r.conversations.length)).sum
      totalAvailable := (allResults.map (fun r => r.totalCount)).sum
      resultsByStatus := allResults.map (fun r =>
        { status := r.status
          count := r.conversations.length
          totalAvailable := r.totalCount
          conversations := r.conversations }) })

/-- All conversation ids appearing in a keyword search result, in output
order (concatenation of the per-status groups). -/
def keywordMergeIds (branches : List (String × Except Rejection StatusResult)) :
    List Nat :=
  match keywordMerge branches with
  | Except.ok res => ((res.resultsByStatus.map (fun g => g.conversations)).flatten).map
      (fun c => c.id)
  | Except.error _ => []

def exceptIsOk {ε α : Type} : Except ε α → Bool
  | Except.ok _ => true
  | Except.error _ => false

/-- One status fetch outcome of the list/structured paths: the conversations
fetched by fetchConversationPages plus the totalElements reported upstream. -/
structure FetchOut where
  conversations : List Conversation
  totalElements : Nat
deriving DecidableEq, Repr

/-- The inner for-loop of the multi-status merge: push each conversation whose
id is not yet in seenIds, in order.  Returns the extended accumulator and the
extended seen set (the Set of the source is modelled as a list of ids). -/
def pushDedup (seen : List Nat) (acc : List Conversation) :
    List Conversation → List Conversation × List Nat
  | [] => (acc, seen)
  | c :: cs =>
    if c.id ∈ seen then pushDedup seen acc cs
    else pushDedup (c.id :: seen) (acc ++ [c]) cs

/-- Outcome of searchConversationsList in the multi-status branch. -/
structure ListSearchOk where
  conversations : List Conversation
  searchedStatuses : List String
  pagination : Pagination
deriving DecidableEq, Repr

/-- The Promise.allSettled fold of the multi-status branch of
searchConversationsList (tools/index.ts): walk outcomes in order, accumulate
fulfilled conversations with cross-status dedup by id and sum their
totalElements; a rejected branch rethrows when not an ApiError or when its
code is UNAUTHORIZED or INVALID_INPUT, and is otherwise recorded in
failedStatuses. -/
def listMergeGo (seen : List Nat) (acc : List Conversation) (totalAvail : Nat)
    (failed : List FailedStatus) :
    List (String × Except Rejection FetchOut) →
      Except Rejection (List Conversation × Nat × List FailedStatus)
  | [] => Except.ok (acc, totalAvail, failed)
  | (_, Except.ok out) :: rest =>
    let step := pushDedup seen acc out.conversations
    listMergeGo step.2 step.1 (totalAvail + out.totalElements) failed rest
  | (st, Except.error rej) :: rest =>
    match rej with
    | Rejection.other m => Except.error (Rejection.other m)
    | Rejection.api e =>
      if e.code = ErrorCode.UNAUTHORIZED ∨ e.code = ErrorCode.INVALID_INPUT then
        Except.error (Rejection.api e)
      else
        listMergeGo seen acc totalAvail
          (failed ++ [{ status := st, message := e.message, code := e.code }]) rest

/-- searchConversationsList, multi-status branch, after the per-status fetches
have settled: fold the outcomes, drop failed statuses from searchedStatuses
when any failed, sort merged records by createdAt descending, truncate to
effectiveLimit, and build the pagination object (returned, totalAvailable,
plus the errors array when failures occurred). -/
def listMerge (branches : List (String × Except Rejection FetchOut))
    (effectiveLimit : Nat) : Except Rejection ListSearchOk :=
  (listMergeGo [] [] 0 [] branches).map (fun out =>
    let statuses := branches.map (fun b => b.1)
    let failed := out.2.2
    let searchedStatuses :=
      if failed.length > 0 then
        statuses.filter (fun s => ¬ failed.any (fun f => f.status == s))
      else statuses
    let sorted := sortByCreatedDesc out.1
    let conversations := if effectiveLimit < sorted.length
      then sorted.take effectiveLimit else sorted
    { conversations := conversations
      searchedStatuses := searchedStatuses
      pagination :=
        { returned := some conversations.length
          totalAvailable := some out.2.1
          errors := failed } })

/-! ## String rewriting infrastructure

The source performs its HTML transformations with chains of global regex
replacements.  Each replacement pass is modelled as a left-to-right scan over
the character list: at every position the pass either consumes a match
(emitting its replacement and continuing after the match, exactly as a global
replace does — replacements are never rescanned) or emits one character and
moves on.  Every step function consumes at least one character on a match, so
a fuel equal to the input length always suffices; the fuel only serves as a
termination measure. -/

/-- Case-insensitive character comparison (the source regexes carry the i
flag unless noted otherwise). -/
def lowerEq (a b : Char) : Bool := a.toLower == b.toLower

/-- Case-insensitive literal match: returns the remainder after the pattern. -/
def dropLitCI : List Char → List Char → Option (List Char)
  | [], s => some s
  | _ :: _, [] => none
  | p :: ps, c :: cs => if lowerEq p c then dropLitCI ps cs else none

/-- Case-sensitive literal match: returns the remainder after the pattern. -/
def dropLitCS : List Char → List Char → Option (List Char)
  | [], s => some s
  | _ :: _, [] => none
  | p :: ps, c :: cs => if p == c then dropLitCS ps cs else none

/-- Splits at the first greater-than sign: models a greedy run of the
character class excluding it, followed by the sign itself.  Returns the run
and the remainder after the sign; none when the sign never occurs. -/
def splitAtGt : List Char → Option (List Char × List Char)
  | [] => none
  | c :: cs =>
    if c == '>' then some ([], cs)
    else match splitAtGt cs with
      | some (pre, rest) => some (c :: pre, rest)
      | none => none

/-- Splits a maximal run of whitespace characters off the front. -/
def spanWs (s : List Char) : List Char × List Char :=
  (s.takeWhile Char.isWhitespace, s.dropWhile Char.isWhitespace)

/-- Consumes a maximal run of literal br tags (case-insensitive), returning
how many were consumed and the remainder. -/
def dropBrRun : Nat → List Char → Nat × List Char
  | 0, s => (0, s)
  | fuel + 1, s =>
    match dropLitCI "<br>".data s with
    | some rest =>
      let r := dropBrRun fuel rest
      (r.1 + 1, r.2)
    | none => (0, s)

/-- The generic global-replace scanner described above.  step returns the
replacement text and the remainder after the match, or none when no match
starts at this position. -/
def scanRewrite (step : List Char → Option (List Char × List Char)) :
    Nat → List Char → List Char
  | _, [] => []
  | 0, s => s
  | fuel + 1, c :: cs =>
    match step (c :: cs) with
    | some (out, rest) => out ++ scanRewrite step fuel rest
    | none => c :: scanRewrite step fuel cs

/-- Number of (non-overlapping, leftmost-first) occurrences of a literal
pattern, case-sensitive. -/
def countSub (pat : List Char) : Nat → List Char → Nat
  | _, [] => 0
  | 0, _ => 0
  | fuel + 1, c :: cs =>
    match dropLitCS pat (c :: cs) with
    | some rest => 1 + countSub pat fuel rest
    | none => countSub pat fuel cs

def countSubStr (pat s : String) : Nat := countSub pat.data s.data.length s.data

/-- Whether a literal pattern occurs anywhere, case-sensitive. -/
def containsSub (pat : List Char) : Nat → List Char → Bool
  | _, [] => (dropLitCS pat []).isSome
  | 0, _ => false
  | fuel + 1, c :: cs =>
    match dropLitCS pat (c :: cs) with
    | some _ => true
    | none => containsSub pat fuel cs

def containsSubStr (pat s : String) : Bool := containsSub pat.data (s.data.length + 1) s.data

/-! ## formatReplyHtml (tools/index.ts)

Each regex pass of the source is one step function below, in source order.
The steps emit matched tag text verbatim (the source replacements reuse the
capture groups), and the replacement semantics follow the notes on
scanRewrite. -/

/-- Replaces every newline by a br tag (the .replace of the pre pass). -/
def nlToBr : List Char → List Char
  | [] => []
  | c :: cs => if c == '\n' then "<br>".data ++ nlToBr cs else c :: nlToBr cs

/-- Finds the earliest end of the lazy pre content: the first position where
an optional close-code tag (followed by whitespace) and a close-pre tag, or a
bare close-pre tag, begins.  Returns the content before it and the remainder
after the matched tail. -/
def findPreEnd : Nat → List Char → Option (List Char × List Char)
  | _, [] => none
  | 0, _ => none
  | fuel + 1, c :: cs =>
    match dropLitCI "</code>".data (c :: cs) with
    | some afterCode =>
      match dropLitCI "</pre>".data (spanWs afterCode).2 with
      | some rest => some ([], rest)
      | none =>
        match findPreEnd fuel cs with
        | some (content, rest) => some (c :: content, rest)
        | none => none
    | none =>
      match dropLitCI "</pre>".data (c :: cs) with
      | some rest => some ([], rest)
      | none =>
        match findPreEnd fuel cs with
        | some (content, rest) => some (c :: content, rest)
        | none => none

/-- Pass 1: pre blocks (with an optional nested open-code tag) become a div
with newlines rewritten to br tags. -/
def preStep (s : List Char) : Option (List Char × List Char) :=
  match dropLitCI "<pre".data s with
  | none => none
  | some afterPre =>
    match splitAtGt afterPre with
    | none => none
    | some (_, afterOpen) =>
      let contentStart :=
        match dropLitCI "<code".data (spanWs afterOpen).2 with
        | some afterCode =>
          match splitAtGt afterCode with
          | some (_, r) => r
          | none => afterOpen
        | none => afterOpen
      match findPreEnd contentStart.length contentStart with
      | none => none
      | some (content, rest) =>
        some ("<div>".data ++ nlToBr content ++ "</div>".data, rest)

def isWordChar (c : Char) : Bool := c.isAlphanum || c == '_'

/-- Whether an attribute run contains the word class (the negative lookahead
of the code-class pass), with regex word boundaries and case-insensitive.
prev is the character preceding the scan position in the subject string (the
final e of the open-code literal at the start of the attribute run). -/
def containsWordClass (prev : Option Char) : Nat → List Char → Bool
  | _, [] => false
  | 0, _ => false
  | fuel + 1, c :: cs =>
    let boundaryBefore := match prev with
      | none => true
      | some p => !isWordChar p
    let hit := boundaryBefore &&
      (match dropLitCI "class".data (c :: cs) with
        | some rest =>
          match rest with
          | [] => true
          | n :: _ => !isWordChar n
        | none => false)
    hit || containsWordClass (some c) fuel cs

/-- Pass 2: bare open-code tags (attributes not containing the word class) get
an inline-code class injected. -/
def codeClassStep (s : List Char) : Option (List Char × List Char) :=
  match dropLitCI "<code".data s with
  | none => none
  | some afterCode =>
    match splitAtGt afterCode with
    | none => none
    | some (attrs, rest) =>
      if containsWordClass (some 'e') attrs.length attrs then none
      else some ("<code class=\"inline-code\"".data ++ attrs ++ ['>'], rest)

/-- Pass 3: open-p tags are dropped. -/
def pOpenStep (s : List Char) : Option (List Char × List Char) :=
  match dropLitCI "<p".data s with
  | none => none
  | some afterP =>
    match splitAtGt afterP with
    | none => none
    | some (_, rest) => some ([], rest)

/-- Pass 4: close-p tags become a double br. -/
def pCloseStep (s : List Char) : Option (List Char × List Char) :=
  match dropLitCI "</p>".data s with
  | none => none
  | some rest => some ("<br><br>".data, rest)

/-- A block opening tag of the given name: the literal name then any
characters other than the greater-than sign, then the sign.  Returns the full
matched tag text and the remainder. -/
def matchOpenTag (name : String) (s : List Char) : Option (List Char × List Char) :=
  match dropLitCI ("<" ++ name).data s with
  | none => none
  | some afterName =>
    match splitAtGt afterName with
    | none => none
    | some (attrs, rest) =>
      some (s.take (1 + name.length + attrs.length + 1), rest)

/-- Pass 5: a run of br tags (plus whitespace) immediately before an open
ul / ol / div tag is dropped, keeping the tag. -/
def brBeforeBlockStep (s : List Char) : Option (List Char × List Char) :=
  let consumed := dropBrRun s.length s
  if consumed.1 = 0 then none
  else
    let afterWs := (spanWs consumed.2).2
    match matchOpenTag "ul" afterWs with
    | some (tag, rest) => some (tag, rest)
    | none =>
      match matchOpenTag "ol" afterWs with
      | some (tag, rest) => some (tag, rest)
      | none =>
        match matchOpenTag "div" afterWs with
        | some (tag, rest) => some (tag, rest)
        | none => none

/-- Pass 6: a run of br tags (plus whitespace) immediately before an open
blockquote tag is dropped in compact mode and normalised to a double br in
relaxed mode. -/
def brBeforeBlockquoteStep (compact : Bool) (s : List Char) :
    Option (List Char × List Char) :=
  let consumed := dropBrRun s.length s
  if consumed.1 = 0 then none
  else
    let afterWs := (spanWs consumed.2).2
    match matchOpenTag "blockquote" afterWs with
    | some (tag, rest) =>
      some ((if compact then tag else "<br><br>".data ++ tag), rest)
    | none => none

/-- A closing tag of one of the block names, tried in the alternation order of
the source regex.  Returns the matched tag text and the remainder. -/
def matchBlockClose (s : List Char) : Option (List Char × List Char) :=
  match dropLitCI "</ul>".data s with
  | some rest => some (s.take 5, rest)
  | none =>
    match dropLitCI "</ol>".data s with
    | some rest => some (s.take 5, rest)
    | none =>
      match dropLitCI "</blockquote>".data s with
      | some rest => some (s.take 13, rest)
      | none =>
        match dropLitCI "</div>".data s with
        | some rest => some (s.take 6, rest)
        | none => none

/-- Pass 7: after every closing block tag, the following whitespace and run of
br tags are consumed; relaxed mode emits a single br after the tag, compact
mode emits none. -/
def afterBlockCloseStep (compact : Bool) (s : List Char) :
    Option (List Char × List Char) :=
  match matchBlockClose s with
  | none => none
  | some (tag, rest) =>
    let afterWs := (spanWs rest).2
    let afterBrs := (dropBrRun afterWs.length afterWs).2
    some ((if compact then tag else tag ++ "<br>".data), afterBrs)

/-- Pass 8: a trailing run of br tags at the very end of the document is
removed (the source pattern anchors at the end and is applied once). -/
def trimTrailingBrs : Nat → List Char → List Char
  | 0, s => s
  | fuel + 1, s =>
    let r := s.reverse
    match dropLitCI ">rb<".data r with
    | some rBody => trimTrailingBrs fuel rBody.reverse
    | none => s

def formatReplyHtmlL (compact : Bool) (s0 : List Char) : List Char :=
  let s1 := scanRewrite preStep s0.length s0
  let s2 := scanRewrite codeClassStep s1.length s1
  let s3 := scanRewrite pOpenStep s2.length s2
  let s4 := scanRewrite pCloseStep s3.length s3
  let s5 := scanRewrite brBeforeBlockStep s4.length s4
  let s6 := scanRewrite (brBeforeBlockquoteStep compact) s5.length s5
  let s7 := scanRewrite (afterBlockCloseStep compact) s6.length s6
  trimTrailingBrs s7.length s7

/-- formatReplyHtml (tools/index.ts): converts authored HTML to the Help Scout
rendering format by the eight passes above, in source order. -/
def formatReplyHtml (html : String) (compact : Bool) : String :=
  String.mk (formatReplyHtmlL compact html.data)

/-! ## stripHtml and cleanBeaconForm (tools/index.ts) -/

/-- A br tag with optional whitespace and an optional self-closing slash. -/
def brTagStep (s : List Char) : Option (List Char × List Char) :=
  match dropLitCI "<br".data s with
  | none => none
  | some afterBr =>
    let afterWs := (spanWs afterBr).2
    let afterSlash := match afterWs with
      | '/' :: r => r
      | r => r
    match afterSlash with
    | '>' :: rest => some (['\n'], rest)
    | _ => none

def pCloseNlStep (s : List Char) : Option (List Char × List Char) :=
  match dropLitCI "</p>".data s with
  | none => none
  | some rest => some (['\n'], rest)

def divCloseNlStep (s : List Char) : Option (List Char × List Char) :=
  match dropLitCI "</div>".data s with
  | none => none
  | some rest => some (['\n'], rest)

/-- Any remaining tag: a less-than sign, one or more characters other than the
greater-than sign, then the sign; dropped. -/
def anyTagStep (s : List Char) : Option (List Char × List Char) :=
  match s with
  | '<' :: rest =>
    (match splitAtGt rest with
      | some (inner, r) => if inner.isEmpty then none else some ([], r)
      | none => none)
  | _ => none

/-- The six entity decodes are six sequential global replaces in the source,
each one pass over the whole string, so they are kept as six separate steps
(an ampersand produced by the amp decode can thus feed the later decodes of a
run, matching the source order); all case-insensitive. -/
def nbspStep (s : List Char) : Option (List Char × List Char) :=
  match dropLitCI "&nbsp;".data s with
  | some rest => some ([' '], rest)
  | none => none

def ampStep (s : List Char) : Option (List Char × List Char) :=
  match dropLitCI "&amp;".data s with
  | some rest => some (['&'], rest)
  | none => none

def ltEntityStep (s : List Char) : Option (List Char × List Char) :=
  match dropLitCI "&lt;".data s with
  | some rest => some (['<'], rest)
  | none => none

def gtEntityStep (s : List Char) : Option (List Char × List Char) :=
  match dropLitCI "&gt;".data s with
  | some rest => some (['>'], rest)
  | none => none

def quotEntityStep (s : List Char) : Option (List Char × List Char) :=
  match dropLitCI "&quot;".data s with
  | some rest => some (['"'], rest)
  | none => none

def aposEntityStep (s : List Char) : Option (List Char × List Char) :=
  match dropLitCI "&#39;".data s with
  | some rest => some ([Char.ofNat 39], rest)
  | none => none

def crlfStep (s : List Char) : Option (List Char × List Char) :=
  match s with
  | '\r' :: '\n' :: rest => some (['\n'], rest)
  | _ => none

/-- A run of two or more spaces collapses to one space. -/
def spaceRunStep (s : List Char) : Option (List Char × List Char) :=
  match s with
  | ' ' :: ' ' :: rest => some ([' '], rest.dropWhile (fun c => c == ' '))
  | _ => none

/-- A run of three or more newlines collapses to two. -/
def nlRunStep (s : List Char) : Option (List Char × List Char) :=
  match s with
  | '\n' :: '\n' :: '\n' :: rest =>
    some (['\n', '\n'], rest.dropWhile (fun c => c == '\n'))
  | _ => none

def trimChars (s : List Char) : List Char :=
  ((s.dropWhile Char.isWhitespace).reverse.dropWhile Char.isWhitespace).reverse

/-- split on newline. -/
def splitNl : List Char → List (List Char)
  | [] => [[]]
  | c :: cs =>
    let r := splitNl cs
    if c == '\n' then [] :: r
    else match r with
      | line :: rest => (c :: line) :: rest
      | [] => [[c]]

def joinNl : List (List Char) → List Char
  | [] => []
  | [l] => l
  | l :: rest => l ++ '\n' :: joinNl rest

/-- stripHtml (tools/index.ts): the replacement chain in source order — br,
close-p and close-div tags to newlines, any other tag dropped, entities
decoded, carriage returns and tabs normalised, space runs collapsed, newline
runs capped at two, every line trimmed, and the whole result trimmed. -/
def stripHtmlL (s0 : List Char) : List Char :=
  let s1 := scanRewrite brTagStep s0.length s0
  let s2 := scanRewrite pCloseNlStep s1.length s1
  let s3 := scanRewrite divCloseNlStep s2.length s2
  let s4 := scanRewrite anyTagStep s3.length s3
  let s5a := scanRewrite nbspStep s4.length s4
  let s5b := scanRewrite ampStep s5a.length s5a
  let s5c := scanRewrite ltEntityStep s5b.length s5b
  let s5d := scanRewrite gtEntityStep s5c.length s5c
  let s5e := scanRewrite quotEntityStep s5d.length s5d
  let s5 := scanRewrite aposEntityStep s5e.length s5e
  let s6 := scanRewrite crlfStep s5.length s5
  let s7 := s6.map (fun c => if c == '\r' then '\n' else c)
  let s8 := s7.map (fun c => if c == '\t' then ' ' else c)
  let s9 := scanRewrite spaceRunStep s8.length s8
  let s10 := scanRewrite nlRunStep s9.length s9
  let s11 := joinNl ((splitNl s10).map trimChars)
  trimChars s11

def stripHtml (html : String) : String := String.mk (stripHtmlL html.data)

/-- Earliest occurrence of a case-insensitive literal: the text before it and
the remainder after it. -/
def findLitCI (pat : List Char) : Nat → List Char → Option (List Char × List Char)
  | _, [] =>
    (match dropLitCI pat [] with
      | some rest => some ([], rest)
      | none => none)
  | 0, _ => none
  | fuel + 1, c :: cs =>
    match dropLitCI pat (c :: cs) with
    | some rest => some ([], rest)
    | none =>
      match findLitCI pat fuel cs with
      | some (pre, rest) => some (c :: pre, rest)
      | none => none

/-- The View Full Ticket link match of cleanBeaconForm: an open-a tag with at
least one whitespace, an href attribute whose value runs to the next double
quote, any further attributes, then the literal link text and close tag.
Searches successive starting positions like the regex engine.  Returns the
captured href value. -/
def findTicketLink : Nat → List Char → Option (List Char)
  | 0, _ => none
  | fuel + 1, s =>
    let attempt : Option (List Char) :=
      match dropLitCI "<a".data s with
      | none => none
      | some afterA =>
        let ws := spanWs afterA
        if ws.1.isEmpty then none
        else
          match dropLitCI "href=\"".data ws.2 with
          | none => none
          | some afterHref =>
            let url := afterHref.takeWhile (fun c => !(c == '"'))
            if url.isEmpty then none
            else
              match afterHref.dropWhile (fun c => !(c == '"')) with
              | '"' :: afterQuote =>
                (match splitAtGt afterQuote with
                  | none => none
                  | some (_, afterGt) =>
                    match dropLitCI "View Full Ticket</a>".data afterGt with
                    | some _ => some url
                    | none => none)
              | _ => none
    match attempt with
    | some url => some url
    | none =>
      match s with
      | [] => none
      | _ :: cs => findTicketLink fuel cs

/-- Decodes ampersand entities in an extracted link, as the source does on the
captured href. -/
def decodeAmp (s : List Char) : List Char :=
  scanRewrite (fun t =>
    match dropLitCI "&amp;".data t with
    | some rest => some (['&'], rest)
    | none => none) s.length s

/-- The hidden-span match of cleanBeaconForm: the literal open span with the
display-none style, then the lazy content up to the first close-span tag. -/
def findHiddenSpan (s : List Char) : Option (List Char) :=
  match findLitCI "<span style=\"display: none\">".data s.length s with
  | none => none
  | some (_, afterOpen) =>
    match findLitCI "</span>".data afterOpen.length afterOpen with
    | none => none
    | some (content, _) => some content

/-- One answer-row match of the Beacon form table: the open-tr tag with the
white bgcolor attribute, then (lazily) the first open-td, the first open-font
tag, the captured content up to the first close-font, and the first close-tr.
Returns the capture and the remainder after the close-tr. -/
def matchAnswerRow (s : List Char) : Option (List Char × List Char) :=
  match dropLitCI "<tr".data s with
  | none => none
  | some afterTr =>
    let ws := spanWs afterTr
    if ws.1.isEmpty then none
    else
      match dropLitCI "bgcolor=\"#FFFFFF\"".data ws.2 with
      | none => none
      | some afterBg =>
        match splitAtGt afterBg with
        | none => none
        | some (_, afterOpen) =>
          match findLitCI "<td".data afterOpen.length afterOpen with
          | none => none
          | some (_, afterTd) =>
            match findLitCI "<font".data afterTd.length afterTd with
            | none => none
            | some (_, afterFont) =>
              match splitAtGt afterFont with
              | none => none
              | some (_, afterFontGt) =>
                match findLitCI "</font>".data afterFontGt.length afterFontGt with
                | none => none
                | some (capture, afterFontClose) =>
                  match findLitCI "</tr>".data afterFontClose.length afterFontClose with
                  | none => none
                  | some (_, rest) => some (capture, rest)

/-- The while loop over answer rows: collect the trimmed captures that are
nonempty and differ from the nbsp entity. -/
def collectAnswers : Nat → List Char → List (List Char)
  | 0, _ => []
  | fuel + 1, s =>
    match matchAnswerRow s with
    | some (capture, rest) =>
      let text := trimChars capture
      let keep := !(text.isEmpty) && !(text == "&nbsp;".data)
      let tail := collectAnswers fuel rest
      if keep then text :: tail else tail
    | none =>
      match s with
      | [] => []
      | _ :: cs => collectAnswers fuel cs

/-- cleanBeaconForm (tools/index.ts): non-Beacon HTML (no EAEAEA bgcolor,
matched case-sensitively as in the source) passes through unchanged; a Beacon
form yields the hidden-span message when present and nonblank, otherwise the
last answer-row capture, in both cases followed by the source link when one
was found; when nothing was extracted the original HTML is returned. -/
def cleanBeaconFormL (html : List Char) : List Char :=
  if containsSub "bgcolor=\"#EAEAEA\"".data (html.length + 1) html then
    let sourceUrl := match findTicketLink html.length html with
      | some url => decodeAmp url
      | none => []
    let suffix := if sourceUrl.isEmpty then []
      else "<br>\n<br>\nSource: ".data ++ sourceUrl
    match findHiddenSpan html with
    | some content =>
      if (trimChars content).isEmpty then
        let answers := collectAnswers html.length html
        let message := match answers.getLast? with
          | some a => a
          | none => []
        let out := message ++ suffix
        if out.isEmpty then html else out
      else content ++ suffix
    | none =>
      let answers := collectAnswers html.length html
      let message := match answers.getLast? with
        | some a => a
        | none => []
      let out := message ++ suffix
      if out.isEmpty then html else out
  else html

def cleanBeaconForm (html : String) : String := String.mk (cleanBeaconFormL html.data)

/-! ## Configuration (src/utils/config.ts) and redaction -/

/-- config.security.allowPii: REDACT_MESSAGE_CONTENT !== the string true.  The
argument is the raw environment value, none when unset. -/
def allowPiiFromEnv (redactMessageContent : Option String) : Bool :=
  !(redactMessageContent == some "true")

/-- config.helpscout.allowSendReply: HELPSCOUT_ALLOW_SEND_REPLY === the string
true. -/
def allowSendReplyFromEnv (v : Option String) : Bool := v == some "true"

/-- The fixed redaction placeholder used everywhere a body is hidden. -/
def hiddenPlaceholder : String :=
  "[Content hidden - set REDACT_MESSAGE_CONTENT=false to view]"

/-- transcriptMaxMessages resolution: the zod schema default of 10
(src/schema/types.ts SearchConversationsInputSchema). -/
def resolveTranscriptMax (given : Option Nat) : Nat := given.getD 10

/-! ## buildTranscript, attachTranscripts and getThreads (tools/index.ts) -/

/-- The dialogue filter of buildTranscript: customer or message type, drafts
excluded. -/
def isDialogueThread (t : Thread) : Bool :=
  (t.ttype == "customer" || t.ttype == "message") && !(t.state == "draft")

structure TranscriptEntry where
  role : String
  fromName : String
  date : Int
  body : String
  attachments : Option Nat
deriving DecidableEq, Repr

/-- The name shown for a transcript entry: first and last joined and trimmed,
with per-role fallbacks (the source field is called from). -/
def threadPersonName (isCustomer : Bool) (p : Option Person) : String :=
  match p with
  | some person => (person.first ++ " " ++ person.last).trim
  | none => if isCustomer then "Customer" else "Staff"

/-- The body of a transcript entry under the PII policy: Beacon-form cleanup
plus HTML stripping when content is allowed, the fixed placeholder when
redacted. -/
def transcriptBody (allowPii : Bool) (raw : String) : String :=
  if allowPii then stripHtml (cleanBeaconForm raw) else hiddenPlaceholder

/-- buildTranscript (tools/index.ts): filter to dialogue threads, sort by
createdAt ascending, truncate to maxMessages, then map each thread to its
entry.  The allowPii argument stands for config.security.allowPii. -/
def transcriptEntryOf (allowPii : Bool) (t : Thread) : TranscriptEntry :=
  { role := if t.ttype == "customer" then "customer" else "staff"
    fromName := threadPersonName (t.ttype == "customer")
      (if t.ttype == "customer" then t.customer else t.createdBy)
    date := t.createdAt
    body := transcriptBody allowPii t.body
    attachments := if t.attachmentsCount > 0 then some t.attachmentsCount else none }

def buildTranscript (threads : List Thread) (maxMessages : Nat) (allowPii : Bool) :
    List TranscriptEntry :=
  ((List.insertionSort byThreadCreatedAsc (threads.filter isDialogueThread)).take
    maxMessages).map (transcriptEntryOf allowPii)

/-- A conversation enriched by attachTranscripts: the original record plus
either a transcript or the error placeholder fields
(transcript: null, transcriptError: Failed to fetch). -/
structure EnrichedConversation where
  conv : Conversation
  transcript : Option (List TranscriptEntry)
  transcriptError : Option String
deriving DecidableEq, Repr

/-- attachTranscripts (tools/index.ts): for every conversation, the
Promise.allSettled branch fetches its threads and builds the transcript; a
fulfilled branch attaches the transcript, a rejected branch — whatever its
error, including UNAUTHORIZED and INVALID_INPUT — yields the placeholder
entry.  The fetch outcomes are supplied as a function of the conversation id
(fetchThreadPages is the only awaited step of a branch, so it is the only
rejection source). -/
def attachTranscripts (conversations : List Conversation)
    (fetch : Nat → Except Rejection (List Thread)) (maxMessages : Nat)
    (allowPii : Bool) : List EnrichedConversation :=
  conversations.map (fun conv =>
    match fetch conv.id with
    | Except.ok threads =>
      { conv := conv
        transcript := some (buildTranscript threads maxMessages allowPii)
        transcriptError := none }
    | Except.error _ =>
      { conv := conv, transcript := none, transcriptError := some "Failed to fetch" })

/-- The slim thread shape returned by getThreads in its default branch. -/
structure SlimThread where
  id : Nat
  ttype : String
  status : String
  body : String
  createdBy : Option Person
  customer : Option Person
  createdAt : Int
  attachments : Option Nat
deriving DecidableEq, Repr

/-- The default (non-verbose, non-transcript) thread projection of getThreads
(tools/index.ts): slim fields with the body redacted unless allowPii.  The
body is passed through verbatim when allowed — no HTML stripping on this
path. -/
def processThreadsSlim (threads : List Thread) (allowPii : Bool) : List SlimThread :=
  threads.map (fun thread =>
    { id := thread.id
      ttype := thread.ttype
      status := thread.status
      body := if allowPii then thread.body else hiddenPlaceholder
      createdBy := thread.createdBy
      customer := thread.customer
      createdAt := thread.createdAt
      attachments := if thread.attachmentsCount > 0
        then some thread.attachmentsCount else none })

/-- The verbose branch of getThreads: raw thread objects, with every body
replaced by the placeholder when redaction is on. -/
def redactThreadsVerbose (threads : List Thread) (allowPii : Bool) : List Thread :=
  if allowPii then threads
  else threads.map (fun t => { t with body := hiddenPlaceholder })

/-! ## createReply (tools/index.ts) -/

/-- The customer reference of CreateReplyInputSchema: by id or by email. -/
inductive CustomerRef where
  | byId (id : Nat)
  | byEmail (email : String) (firstName lastName : Option String)
deriving DecidableEq, Repr

/-- CreateReplyInput after schema parsing (src/schema/types.ts): draft has the
zod default true. -/
structure CreateReplyInput where
  conversationId : String
  text : String
  customer : CustomerRef
  draft : Bool := true
  user : Option Nat := none
  assignTo : Option Nat := none
  status : Option String := none
  cc : Option (List String) := none
  bcc : Option (List String) := none
deriving DecidableEq, Repr

/-- The request body handed to postWithResponse by createReply. -/
structure ReplyBody where
  text : String
  customer : CustomerRef
  draft : Bool
  user : Option Nat
  assignTo : Option Nat
  status : Option String
  cc : Option (List String)
  bcc : Option (List String)
deriving DecidableEq, Repr

/-- What createReply does before any network activity: either the blocked
result (returned without issuing a request) or the POST that reaches the
network layer. -/
inductive CreateReplyAction where
  | blocked (error message suggestion : String)
  | request (path : String) (body : ReplyBody)
deriving DecidableEq, Repr

/-- createReply (tools/index.ts): isDraft is input.draft !== false (true by
the schema default); a non-draft reply with the send flag unset returns the
blocked result before any network call; otherwise the reply text is formatted
and the POST body is built with draft: isDraft.  allowSendReply and compact
stand for config.helpscout.allowSendReply and the compact reply-spacing
setting. -/
def publishedRepliesDisabledMessage : String :=
  "Sending non-draft replies requires HELPSCOUT_ALLOW_SEND_REPLY=true in the environment. This is a safety measure to prevent accidental sends. Draft replies are always allowed."

def publishedRepliesDisabledSuggestion : String :=
  "Either set draft=true (default) to create a draft, or set the HELPSCOUT_ALLOW_SEND_REPLY=true environment variable to enable sending."

def createReply (input : CreateReplyInput) (allowSendReply : Bool)
    (compact : Bool) : CreateReplyAction :=
  let isDraft := input.draft
  if !isDraft && !allowSendReply then
    CreateReplyAction.blocked
      "Published replies are disabled"
      publishedRepliesDisabledMessage
      publishedRepliesDisabledSuggestion
  else
    CreateReplyAction.request
      ("/conversations/" ++ input.conversationId ++ "/reply")
      { text := formatReplyHtml input.text compact
        customer := input.customer
        draft := isDraft
        user := input.user
        assignTo := input.assignTo
        status := input.status
        cc := input.cc
        bcc := input.bcc }

/-! ## Constraint validation and the callTool gate -/

/-- The argument slice of a tool call that the createReply constraint rules
inspect. -/
structure ToolArgs where
  conversationId : Option String := none
  text : Option String := none
  hasCustomer : Bool := false
deriving DecidableEq, Repr

/-- ValidationResult (structure per the spec and the dispatcher call site):
{ isValid, errors, suggestions, requiredPrerequisites }. -/
structure ValidationResult where
  isValid : Bool
  errors : List String
  suggestions : List String
  requiredPrerequisites : List String
deriving DecidableEq, Repr

def isNumericString (s : String) : Bool :=
  !(s.data.isEmpty) && s.data.all Char.isDigit

/-- Modelled from the spec: HelpScoutAPIConstraints.validateToolCall lives in
src/utils/api-constraints.ts, which is not under src/ here (only its caller in
tools/index.ts and its tests are).  Per the spec, a static rule table keyed by
tool name checks argument shape before any network call; for the
reply-creation tool a conversationId must match a digits-only pattern
(failing with the message Invalid conversation ID format), and text and
customer are required; failures return structured errors, human-readable
suggestions and an explicit list of prerequisite tool names to call first.
The user-query context rules of the spec are not needed by any claim and are
omitted. -/
def validateToolCall (toolName : String) (args : ToolArgs) : ValidationResult :=
  if toolName == "createReply" then
    let idErrors := match args.conversationId with
      | some cid => if isNumericString cid then [] else ["Invalid conversation ID format"]
      | none => ["conversationId is required"]
    let textErrors := if args.text.isSome then [] else ["text is required"]
    let customerErrors := if args.hasCustomer then [] else ["customer is required"]
    let errors := idErrors ++ textErrors ++ customerErrors
    { isValid := errors.isEmpty
      errors := errors
      suggestions :=
        if errors.isEmpty then []
        else ["Use a numeric conversation ID taken from searchConversations results"]
      requiredPrerequisites := if errors.isEmpty then [] else ["searchConversations"] }
  else { isValid := true, errors := [], suggestions := [], requiredPrerequisites := [] }

/-- The rejection payload the dispatcher returns as an ordinary tool result
(its error field is the fixed heading of the JSON the source builds). -/
structure ToolCallRejection where
  error : String
  errors : List String
  suggestions : List String
  requiredPrerequisites : List String
deriving DecidableEq, Repr

/-- Outcome of the validation gate at the top of callTool: either the
normal-result rejection (not a thrown error) or the go-ahead to dispatch. -/
inductive GateOutcome where
  | rejected (r : ToolCallRejection)
  | dispatched
deriving DecidableEq, Repr

/-- The validation gate of callTool (tools/index.ts): validation runs before
any network call; on failure the dispatcher returns the structured error
payload as a normal tool result.  The second component counts the network
requests issued on the gate path — the invalid branch returns before the
try block that performs any dispatching, so it is always zero. -/
def callToolGate (toolName : String) (args : ToolArgs) : GateOutcome × Nat :=
  let validation := validateToolCall toolName args
  if !validation.isValid then
    (GateOutcome.rejected
      { error := "API Constraint Validation Failed"
        errors := validation.errors
        suggestions := validation.suggestions
        requiredPrerequisites := validation.requiredPrerequisites }, 0)
  else (GateOutcome.dispatched, 0)

/-! ## fetchConversationPages (tools/index.ts) -/

/-- One page as the loop reads it off a PaginatedResponse: the embedded
conversations, page.totalElements (0 standing for a falsy / absent value, as
in the totalElements || fallback of the source) and the presence of a
_links.next field. -/
structure Page where
  records : List Conversation
  totalElements : Nat
  hasNext : Bool

/-- The while loop of fetchConversationPages.  The upstream is a function from
page number to page.  budget is the number of loop iterations still allowed by
the currentPage <= effectiveMaxPages bound; page, acc, total and hasMore are
the loop variables. -/
def fetchPagesGo (up : Nat → Page) (desired : Nat) :
    Nat → Nat → List Conversation → Nat → Bool → List Conversation × Nat
  | 0, _, acc, total, _ => (acc, total)
  | budget + 1, page, acc, total, hasMore =>
    if acc.length < desired ∧ hasMore = true then
      let p := up page
      fetchPagesGo up desired budget (page + 1) (acc ++ p.records)
        (if p.totalElements = 0 then total else p.totalElements) p.hasNext
    else (acc, total)

/-- fetchConversationPages (tools/index.ts): fetch sequential pages until the
desired count is reached, the _links.next link disappears, or the page bound
maxPages || ceil(desiredCount / 25) + 1 is hit (a passed 0 is falsy and takes
the default, like the JavaScript or-expression). -/
def fetchConversationPages (up : Nat → Page) (desiredCount : Nat)
    (maxPages : Option Nat) : List Conversation × Nat :=
  let effectiveMaxPages := match maxPages with
    | some (m + 1) => m + 1
    | _ => (desiredCount + 24) / 25 + 1
  fetchPagesGo up desiredCount effectiveMaxPages 1 [] 0 true

/-- An upstream that honours the pagination contract of the claim: a fixed
record list served in pages of 25, totalElements reporting the full count and
_links.next present exactly while records remain. -/
def honestUpstream (all : List Conversation) : Nat → Page := fun page =>
  { records := (all.drop (25 * (page - 1))).take 25
    totalElements := all.length
    hasNext := decide (25 * page < all.length) }

/-! ## Search query building (tools/index.ts) -/

/-- escapeQueryTerm: backslashes doubled, double quotes escaped. -/
def escapeQueryTermL : List Char → List Char
  | [] => []
  | c :: cs =>
    if c == '\\' then '\\' :: '\\' :: escapeQueryTermL cs
    else if c == '"' then '\\' :: '"' :: escapeQueryTermL cs
    else c :: escapeQueryTermL cs

def escapeQueryTerm (s : String) : String := String.mk (escapeQueryTermL s.data)

/-- Array.prototype.join with a separator, as the source uses on query
fragments. -/
def joinSep (sep : String) : List String → String
  | [] => ""
  | [a] => a
  | a :: rest => a ++ sep ++ joinSep sep rest

/-- The per-term field clauses of buildSearchQuery: a body clause when
searchIn includes body or both, then a subject clause when it includes subject
or both (TOOL_CONSTANTS.SEARCH_LOCATIONS). -/
def fieldClausesFor (searchIn : List String) (escaped : String) : List String :=
  (if searchIn.contains "body" || searchIn.contains "both"
    then ["body:\"" ++ escaped ++ "\""] else [])
  ++ (if searchIn.contains "subject" || searchIn.contains "both"
    then ["subject:\"" ++ escaped ++ "\""] else [])

/-- buildSearchQuery (tools/index.ts): for each term, the field clauses are
joined with OR and parenthesised (terms whose clause list is empty are
skipped); the per-term groups are then joined with OR. -/
def buildSearchQuery (terms searchIn : List String) : String :=
  joinSep " OR " (terms.filterMap (fun term =>
    if (fieldClausesFor searchIn (escapeQueryTerm term)).isEmpty then none
    else some ("(" ++ joinSep " OR " (fieldClausesFor searchIn (escapeQueryTerm term)) ++ ")")))

/-- The date validation pattern of appendCreatedAtFilter: four digits, dash,
two digits, dash, two digits, optionally followed by T, one or more of digit /
colon / dot, and an optional Z. -/
def isoTimeTail : List Char → Bool
  | [] => false
  | c :: cs =>
    let body := c :: cs
    let run := body.takeWhile (fun ch => ch.isDigit || ch == ':' || ch == '.')
    let rest := body.drop run.length
    !(run.isEmpty) && (rest.isEmpty || rest == ['Z'])

def isoDatePattern (s : String) : Bool :=
  match s.data with
  | y1 :: y2 :: y3 :: y4 :: '-' :: m1 :: m2 :: '-' :: d1 :: d2 :: rest =>
    y1.isDigit && y2.isDigit && y3.isDigit && y4.isDigit &&
    m1.isDigit && m2.isDigit && d1.isDigit && d2.isDigit &&
    (match rest with
      | [] => true
      | 'T' :: tail => isoTimeTail tail
      | _ => false)
  | _ => false

/-- The millisecond-stripping normalize of appendCreatedAtFilter: a trailing
dot, exactly three digits and a final Z are removed (keeping the Z); anything
else is left alone. -/
def normalizeHsDate (s : String) : String :=
  match s.data.reverse with
  | 'Z' :: d3 :: d2 :: d1 :: '.' :: pre =>
    if d1.isDigit && d2.isDigit && d3.isDigit
    then String.mk (pre.reverse ++ ['Z'])
    else s
  | _ => s

/-- The createdAt range clause of appendCreatedAtFilter: each side is the
normalised date when given, the star wildcard otherwise. -/
def rangeClause (createdAfter createdBefore : Option String) : String :=
  "(createdAt:[" ++ (match createdAfter with
    | some d => normalizeHsDate d
    | none => "*") ++ " TO " ++ (match createdBefore with
    | some d => normalizeHsDate d
    | none => "*") ++ "])"

/-- appendCreatedAtFilter (tools/index.ts): with no dates the existing query
passes through; invalid dates throw; otherwise the range clause is built from
the normalised dates (a missing side becomes a star) and ANDed onto a
non-falsy existing query. -/
def appendCreatedAtFilter (existingQuery : Option String)
    (createdAfter createdBefore : Option String) : Except String (Option String) :=
  if createdAfter = none ∧ createdBefore = none then Except.ok existingQuery
  else if createdAfter.isSome ∧ !(isoDatePattern createdAfter.get!) then
    Except.error ("Invalid createdAfter date format: " ++ createdAfter.get! ++
      ". Expected ISO 8601 (e.g., 2024-01-15T00:00:00Z)")
  else if createdBefore.isSome ∧ !(isoDatePattern createdBefore.get!) then
    Except.error ("Invalid createdBefore date format: " ++ createdBefore.get! ++
      ". Expected ISO 8601 (e.g., 2024-01-15T00:00:00Z)")
  else
    match existingQuery with
    | none => Except.ok (some (rangeClause createdAfter createdBefore))
    | some q =>
      if q = "" then Except.ok (some (rangeClause createdAfter createdBefore))
      else Except.ok (some ("(" ++ q ++ ") AND " ++ rangeClause createdAfter createdBefore))

/-- The query a keyword-mode search sends for each status
(searchConversationsKeyword and searchSingleStatus): buildSearchQuery over the
terms, then appendCreatedAtFilter with the resolved createdAfter only
(createdBefore is client-side), falling back to the bare search query when
the date step yields a falsy value. -/
def keywordQuery (terms searchIn : List String) (createdAfter : String) :
    Except String String :=
  match appendCreatedAtFilter (some (buildSearchQuery terms searchIn))
      (some createdAfter) none with
  | Except.error e => Except.error e
  | Except.ok queryWithDate =>
    Except.ok (match queryWithDate with
      | some q => if q = "" then buildSearchQuery terms searchIn else q
      | none => buildSearchQuery terms searchIn)

/-- The keyword query of a successful build, for concrete evaluation. -/
def keywordQueryStr (terms searchIn : List String) (createdAfter : String) : String :=
  match keywordQuery terms searchIn createdAfter with
  | Except.ok q => q
  | Except.error e => e

/-- Spec-shape definition, written from the spec wording of keyword mode
(section 4.4): within each term the target-field clauses are ORed, the
per-term groups are ORed across terms, and the whole is ANDed with a single
createdAt range clause whose dates are normalised; keyword mode never sends a
createdBefore upstream, so the range end is a star.  Used only for comparison
against the source-derived keywordQuery. -/
def specKeywordQueryShape (terms searchIn : List String) (createdAfter : String) :
    String :=
  "(" ++ joinSep " OR " (terms.map (fun t =>
      "(" ++ joinSep " OR " (fieldClausesFor searchIn (escapeQueryTerm t)) ++ ")")) ++
    ") AND " ++ ("(createdAt:[" ++ normalizeHsDate createdAfter ++ " TO " ++ "*" ++ "])")

/-- Sample records used by concrete witnesses and counterexamples below. -/
def sampleThread : Thread :=
  { id := 1, ttype := "customer", state := "published", status := "active",
    body := "<b>secret</b>", createdAt := 0, customer := none, createdBy := none,
    attachmentsCount := 0 }

def sampleThreadMsg : Thread :=
  { id := 1, ttype := "message", state := "published", status := "active",
    body := "<b>hi</b>", createdAt := 0, customer := none, createdBy := none,
    attachmentsCount := 0 }

def sampleConvA : Conversation := { id := 1, createdAt := 300 }

def sampleConvB : Conversation := { id := 2, createdAt := 200 }

def sampleConvC : Conversation := { id := 3, createdAt := 100 }

/-- Keyword-mode branch outcomes with one benign failure, used as a concrete
witness: two succeeding statuses and a rate-limited third. -/
def sampleKeywordBranches : List (String × Except Rejection StatusResult) :=
  [("active", Except.ok ⟨"active", 1, [sampleConvA]⟩),
   ("pending", Except.ok ⟨"pending", 1, [sampleConvB]⟩),
   ("closed", Except.error (Rejection.api ⟨ErrorCode.RATE_LIMIT, "Rate limited"⟩))]

/-- Keyword-mode branch outcomes in which the same conversation id 1 is
returned under two different statuses while a third status fails with a
benign API error. -/
def dupKeywordBranches : List (String × Except Rejection StatusResult) :=
  [("active", Except.ok ⟨"active", 1, [⟨1, 100⟩]⟩),
   ("pending", Except.ok ⟨"pending", 1, [⟨1, 200⟩]⟩),
   ("closed", Except.error (Rejection.api ⟨ErrorCode.RATE_LIMIT, "Rate limited"⟩))]

/-- Total number of records fetched by the succeeding branches of a
multi-status list search (used to bound the merged, deduplicated result). -/
def totalFetchedLen (branches : List (String × Except Rejection FetchOut)) : Nat :=
  (branches.map (fun b => match b.2 with
    | Except.ok out => out.conversations.length
    | Except.error _ => 0)).sum

/-- List-mode branch outcomes with one benign failure, used as a concrete
witness. -/
def sampleListBranches : List (String × Except Rejection FetchOut) :=
  [("active", Except.ok ⟨[sampleConvC], 1⟩),
   ("pending", Except.ok ⟨[sampleConvA, sampleConvB], 2⟩),
   ("closed", Except.error (Rejection.api ⟨ErrorCode.UPSTREAM_ERROR, "500"⟩))]

/-! ## Theorems -/

theorem ne_empty_of_data_cons (s : String) (c : Char) (l : List Char)
    (h : s.data = c :: l) : s ≠ "" := by
  intro he
  rw [he] at h
  exact List.noConfusion h

/-- C4: formatReplyHtml on the paragraph-list-paragraph document in relaxed
(non-compact) mode yields exactly A, the list, one br, B: no br immediately
before the open ul tag, exactly one br immediately after the close ul tag
(and no double br there); and the formatter is idempotent on this output —
a second application returns it unchanged, so no further br tags accumulate. -/
theorem c4_format_reply_blocks :
    formatReplyHtml "<p>A</p><ul><li>x</li></ul><p>B</p>" false
      = "A<ul><li>x</li></ul><br>B" ∧
    countSubStr "<br><ul" (formatReplyHtml "<p>A</p><ul><li>x</li></ul><p>B</p>" false) = 0 ∧
    countSubStr "</ul><br>" (formatReplyHtml "<p>A</p><ul><li>x</li></ul><p>B</p>" false) = 1 ∧
    countSubStr "</ul><br><br>" (formatReplyHtml "<p>A</p><ul><li>x</li></ul><p>B</p>" false) = 0 ∧
    formatReplyHtml (formatReplyHtml "<p>A</p><ul><li>x</li></ul><p>B</p>" false) false
      = formatReplyHtml "<p>A</p><ul><li>x</li></ul><p>B</p>" false := by
  decide

/-- C5: for every createReply call with draft false, the call is blocked with
the Published replies are disabled error when the send flag is off — the
blocked constructor is returned before any network request — and reaches the
network layer as a POST whose body carries draft false when the flag is on;
the flag itself (HELPSCOUT_ALLOW_SEND_REPLY) is off when the variable is
unset. -/
theorem c5_draft_safety (input : CreateReplyInput) (allowSend compact : Bool)
    (hdraft : input.draft = false) :
    (allowSend = false →
      createReply input allowSend compact =
        CreateReplyAction.blocked "Published replies are disabled"
          publishedRepliesDisabledMessage publishedRepliesDisabledSuggestion) ∧
    (allowSend = true →
      createReply input allowSend compact =
        CreateReplyAction.request ("/conversations/" ++ input.conversationId ++ "/reply")
          { text := formatReplyHtml input.text compact
            customer := input.customer
            draft := false
            user := input.user
            assignTo := input.assignTo
            status := input.status
            cc := input.cc
            bcc := input.bcc }) ∧
    allowSendReplyFromEnv none = false := by
  refine ⟨fun hs => ?_, fun hs => ?_, rfl⟩
  · subst hs
    simp [createReply, hdraft]
  · subst hs
    simp [createReply, hdraft]

theorem c5_draft_safety_witness :
    createReply
      { conversationId := "12345", text := "<p>Test</p>",
        customer := CustomerRef.byId 789, draft := false } false false =
      CreateReplyAction.blocked "Published replies are disabled"
        publishedRepliesDisabledMessage publishedRepliesDisabledSuggestion ∧
    createReply
      { conversationId := "12345", text := "<p>Test</p>",
        customer := CustomerRef.byId 789, draft := false } true false =
      CreateReplyAction.request "/conversations/12345/reply"
        { text := formatReplyHtml "<p>Test</p>" false
          customer := CustomerRef.byId 789
          draft := false
          user := none
          assignTo := none
          status := none
          cc := none
          bcc := none } :=
  ⟨(c5_draft_safety
      { conversationId := "12345", text := "<p>Test</p>",
        customer := CustomerRef.byId 789, draft := false } false false rfl).1 rfl,
   ((c5_draft_safety
      { conversationId := "12345", text := "<p>Test</p>",
        customer := CustomerRef.byId 789, draft := false } true false rfl).2.1 rfl).trans
     (by decide)⟩

/-- C6: whenever constraint validation fails, the callTool dispatcher makes
zero network calls and returns the structured rejection — the errors,
suggestions and prerequisite tool names of the validation result — as a
normal (non-thrown) tool result. -/
theorem c6_validation_gate (toolName : String) (args : ToolArgs)
    (hinvalid : (validateToolCall toolName args).isValid = false) :
    callToolGate toolName args =
      (GateOutcome.rejected
        { error := "API Constraint Validation Failed"
          errors := (validateToolCall toolName args).errors
          suggestions := (validateToolCall toolName args).suggestions
          requiredPrerequisites := (validateToolCall toolName args).requiredPrerequisites },
       0) := by
  simp [callToolGate, hinvalid]

theorem c6_validation_gate_witness :
    (validateToolCall "createReply"
      { conversationId := some "abc", text := some "<p>Test</p>", hasCustomer := true }).isValid
      = false ∧
    "Invalid conversation ID format" ∈ (validateToolCall "createReply"
      { conversationId := some "abc", text := some "<p>Test</p>", hasCustomer := true }).errors ∧
    (validateToolCall "createReply"
      { conversationId := some "abc", text := some "<p>Test</p>", hasCustomer := true }).suggestions ≠ [] ∧
    (validateToolCall "createReply"
      { conversationId := some "abc", text := some "<p>Test</p>", hasCustomer := true }).requiredPrerequisites ≠ [] ∧
    callToolGate "createReply"
      { conversationId := some "abc", text := some "<p>Test</p>", hasCustomer := true } =
      (GateOutcome.rejected
        { error := "API Constraint Validation Failed"
          errors := ["Invalid conversation ID format"]
          suggestions := ["Use a numeric conversation ID taken from searchConversations results"]
          requiredPrerequisites := ["searchConversations"] }, 0) :=
  ⟨by decide, by decide, by decide, by decide,
    (c6_validation_gate "createReply"
      { conversationId := some "abc", text := some "<p>Test</p>", hasCustomer := true }
      (by decide)).trans (by decide)⟩

/-- C3 counterexample: a keyword-mode status search (searchSingleStatusPost)
that fetched two records with upstream total 2 and filtered one out by
createdBefore reports totalCount 1 — equal to the post-filter returned count
and different from the pre-filter upstream total 2 — so the claimed
pre-filter available count is not exposed and the two reported numbers do
not differ. -/
theorem c3_counterexample :
    (searchSingleStatusPost "active"
      [{ id := 1, createdAt := 5 }, { id := 2, createdAt := 15 }]
      2 (some 10) 50).conversations.length = 1 ∧
    (searchSingleStatusPost "active"
      [{ id := 1, createdAt := 5 }, { id := 2, createdAt := 15 }]
      2 (some 10) 50).totalCount = 1 ∧
    (searchSingleStatusPost "active"
      [{ id := 1, createdAt := 5 }, { id := 2, createdAt := 15 }]
      2 (some 10) 50).totalCount ≠ 2 := by
  decide

theorem fieldClausesFor_ne_nil (searchIn : List String) (e : String)
    (h : (searchIn.contains "body" || searchIn.contains "both" ||
      searchIn.contains "subject") = true) :
    fieldClausesFor searchIn e ≠ [] := by
  unfold fieldClausesFor
  have h' := h
  simp only [Bool.or_eq_true] at h'
  rcases h' with (hb | hbo) | hs1
  · have hb' : "body" ∈ searchIn := by simpa using hb
    simp [hb']
  · have hbo' : "both" ∈ searchIn := by simpa using hbo
    simp [hbo']
  · have hs' : "subject" ∈ searchIn := by simpa using hs1
    simp [hs', List.append_eq_nil]

theorem filterMap_eq_map_of {α β : Type} (l : List α) (f : α → Option β) (g : α → β)
    (hfg : ∀ u, f u = some (g u)) : l.filterMap f = l.map g := by
  induction l with
  | nil => rfl
  | cons a as ih => simp [List.filterMap_cons, hfg, ih]

theorem buildSearchQuery_eq_map (terms searchIn : List String)
    (h : ∀ e, fieldClausesFor searchIn e ≠ []) :
    buildSearchQuery terms searchIn = joinSep " OR " (terms.map (fun u =>
      "(" ++ joinSep " OR " (fieldClausesFor searchIn (escapeQueryTerm u)) ++ ")")) := by
  unfold buildSearchQuery
  congr 1
  apply filterMap_eq_map_of
  intro u
  have hne : ¬((fieldClausesFor searchIn (escapeQueryTerm u)).isEmpty = true) := by
    intro hh
    exact h (escapeQueryTerm u) (List.isEmpty_iff.mp hh)
  rw [if_neg hne]

theorem joinSep_cons_data (sep a : String) (l : List String) :
    ∃ t, (joinSep sep (a :: l)).data = a.data ++ t := by
  cases l with
  | nil => exact ⟨[], by simp [joinSep]⟩
  | cons b bl =>
    refine ⟨(sep ++ joinSep sep (b :: bl)).data, ?_⟩
    show (a ++ sep ++ joinSep sep (b :: bl)).data = _
    simp [String.data_append]

theorem appendCreatedAtFilter_some_after (q after : String) (hq : q ≠ "")
    (hd : isoDatePattern after = true) :
    appendCreatedAtFilter (some q) (some after) none =
      Except.ok (some ("(" ++ q ++ ") AND " ++ rangeClause (some after) none)) := by
  unfold appendCreatedAtFilter
  rw [if_neg (by simp)]
  rw [if_neg (by simp [hd])]
  rw [if_neg (by simp)]
  simp [hq]

/-- C8 (amended): for every keyword-mode search with at least one term, a
searchIn drawn from body / subject / both with at least one field selected,
and a createdAfter accepted by the date validation, the generated query ORs
the field clauses within each term and the per-term groups across terms, and
is ANDed with a single createdAt range clause from the normalised start date
to the star wildcard (keyword mode sends no upstream end bound); the
normalisation strips a trailing three-digit millisecond suffix — the form
toISOString produces — to whole-second form (other fractional-second inputs
pass through unchanged, as the counterexample shows). -/
theorem c8_keyword_query_shape (terms searchIn : List String) (after : String)
    (hterms : terms ≠ [])
    (hsi : (searchIn.contains "body" || searchIn.contains "both" ||
      searchIn.contains "subject") = true)
    (hdate : isoDatePattern after = true) :
    keywordQuery terms searchIn after =
      Except.ok (specKeywordQueryShape terms searchIn after) ∧
    (∀ (pre : List Char) (d1 d2 d3 : Char),
      d1.isDigit = true → d2.isDigit = true → d3.isDigit = true →
      normalizeHsDate (String.mk (pre ++ ['.', d1, d2, d3, 'Z'])) =
        String.mk (pre ++ ['Z'])) := by
  constructor
  · obtain ⟨t, ts, rfl⟩ : ∃ t ts, terms = t :: ts := by
      cases terms with
      | nil => simp at hterms
      | cons a b => exact ⟨a, b, rfl⟩
    have hcl : ∀ e, fieldClausesFor searchIn e ≠ [] :=
      fun e => fieldClausesFor_ne_nil searchIn e hsi
    have hbq := buildSearchQuery_eq_map (t :: ts) searchIn hcl
    have hne : buildSearchQuery (t :: ts) searchIn ≠ "" := by
      rw [hbq, List.map_cons]
      obtain ⟨tail, htail⟩ := joinSep_cons_data " OR "
        ("(" ++ joinSep " OR " (fieldClausesFor searchIn (escapeQueryTerm t)) ++ ")")
        (ts.map (fun u =>
          "(" ++ joinSep " OR " (fieldClausesFor searchIn (escapeQueryTerm u)) ++ ")"))
      apply ne_empty_of_data_cons _ '('
        ((joinSep " OR " (fieldClausesFor searchIn (escapeQueryTerm t))).data ++
          [')'] ++ tail)
      rw [htail]
      simp [String.data_append, List.append_assoc]
    unfold keywordQuery
    rw [appendCreatedAtFilter_some_after _ _ hne hdate]
    have hcomb : ("(" ++ buildSearchQuery (t :: ts) searchIn ++ ") AND " ++
        rangeClause (some after) none) ≠ "" :=
      ne_empty_of_data_cons _ '(' _ rfl
    simp only [if_neg hcomb]
    rw [hbq]
    rfl
  · intro pre d1 d2 d3 h1 h2 h3
    unfold normalizeHsDate
    simp [h1, h2, h3]

theorem c8_keyword_query_shape_witness :
    keywordQuery ["refund", "billing"] ["both"] "2024-01-15T00:00:00.123Z" =
      Except.ok (specKeywordQueryShape ["refund", "billing"] ["both"]
        "2024-01-15T00:00:00.123Z") ∧
    (∀ (pre : List Char) (d1 d2 d3 : Char),
      d1.isDigit = true → d2.isDigit = true → d3.isDigit = true →
      normalizeHsDate (String.mk (pre ++ ['.', d1, d2, d3, 'Z'])) =
        String.mk (pre ++ ['Z'])) :=
  c8_keyword_query_shape ["refund", "billing"] ["both"] "2024-01-15T00:00:00.123Z"
    (by decide) (by decide) (by decide)

/-- C8 counterexample: a caller-supplied createdAfter with a six-digit
fractional second passes the date validation, is not stripped by the
normaliser (which only removes the exact three-digit millisecond form), and
reaches the generated keyword query with its sub-second precision intact —
the clause date is not whole-second ISO-8601 as claimed. -/
theorem c8_counterexample :
    exceptIsOk (keywordQuery ["refund"] ["both"] "2024-01-15T00:00:00.123456Z") = true ∧
    containsSubStr ".123456Z"
      (keywordQueryStr ["refund"] ["both"] "2024-01-15T00:00:00.123456Z") = true := by
  decide

theorem orderedInsert_map_rel {α β : Type} (r : α → α → Prop) (s : β → β → Prop)
    [DecidableRel r] [DecidableRel s] (g : β → α)
    (hrs : ∀ a b, r (g a) (g b) ↔ s a b) (x : β) (l : List β) :
    List.orderedInsert r (g x) (l.map g) = (List.orderedInsert s x l).map g := by
  induction l with
  | nil => rfl
  | cons b bl ih =>
    simp only [List.map_cons, List.orderedInsert, apply_ite (List.map g)]
    by_cases hc : s x b
    · rw [if_pos ((hrs x b).mpr hc), if_pos hc]
    · rw [if_neg (fun hh => hc ((hrs x b).mp hh)), if_neg hc, ih]

theorem insertionSort_map_rel {α β : Type} (r : α → α → Prop) (s : β → β → Prop)
    [DecidableRel r] [DecidableRel s] (g : β → α)
    (hrs : ∀ a b, r (g a) (g b) ↔ s a b) (l : List β) :
    List.insertionSort r (l.map g) = (List.insertionSort s l).map g := by
  induction l with
  | nil => rfl
  | cons b bl ih =>
    simp only [List.map_cons, List.insertionSort, ih]
    exact orderedInsert_map_rel r s g hrs b (List.insertionSort s bl)

/-- Every transcript entry comes from a dialogue thread of the input, with the
date and the redaction-policy body of that thread. -/
theorem buildTranscript_mem (threads : List Thread) (maxMessages : Nat)
    (allowPii : Bool) :
    ∀ e ∈ buildTranscript threads maxMessages allowPii,
      ∃ t ∈ threads, isDialogueThread t = true ∧ e.date = t.createdAt ∧
        e.body = transcriptBody allowPii t.body := by
  intro e he
  unfold buildTranscript at he
  obtain ⟨t, ht, rfl⟩ := List.mem_map.mp he
  have ht' : t ∈ List.insertionSort byThreadCreatedAsc (threads.filter isDialogueThread) :=
    List.mem_of_mem_take ht
  have ht'' : t ∈ threads.filter isDialogueThread :=
    (List.perm_insertionSort byThreadCreatedAsc _).subset ht'
  obtain ⟨htm, hdia⟩ := List.mem_filter.mp ht''
  exact ⟨t, htm, hdia, rfl, rfl⟩

theorem buildTranscript_map_body (threads : List Thread) (maxMessages : Nat)
    (f : String → String) :
    buildTranscript (threads.map (fun t => { t with body := f t.body })) maxMessages false
      = buildTranscript threads maxMessages false := by
  unfold buildTranscript
  rw [List.filter_map,
    show isDialogueThread ∘ (fun t => { t with body := f t.body }) = isDialogueThread
      from rfl,
    insertionSort_map_rel byThreadCreatedAsc byThreadCreatedAsc
      (fun t => { t with body := f t.body }) (fun _ _ => Iff.rfl),
    ← List.map_take, List.map_map]
  refine List.map_congr_left (fun t _ => ?_)
  show transcriptEntryOf false { t with body := f t.body } = transcriptEntryOf false t
  simp [transcriptEntryOf, transcriptBody]

/-- C10 (amended): with redaction on (REDACT_MESSAGE_CONTENT=true, so
allowPii is false) every transcript body and every thread body produced by
getThreads — slim or verbose — equals the fixed placeholder; two runs whose
threads differ only in their bodies produce identical transcripts, so no
upstream content influences the output; the flag defaults to content shown
when the variable is unset, in which case transcript bodies are passed
through Beacon-cleaned and HTML-stripped while getThreads thread bodies are
passed through verbatim (unstripped, as the counterexample shows) — both
unredacted. -/
theorem c10_redaction_policy (threads : List Thread) (maxMessages : Nat)
    (f : String → String) :
    (∀ e ∈ buildTranscript threads maxMessages false, e.body = hiddenPlaceholder) ∧
    buildTranscript (threads.map (fun t => { t with body := f t.body })) maxMessages false
      = buildTranscript threads maxMessages false ∧
    (∀ st ∈ processThreadsSlim threads false, st.body = hiddenPlaceholder) ∧
    (∀ t ∈ redactThreadsVerbose threads false, t.body = hiddenPlaceholder) ∧
    allowPiiFromEnv none = true ∧
    (∀ e ∈ buildTranscript threads maxMessages true,
      ∃ t ∈ threads, e.body = stripHtml (cleanBeaconForm t.body)) ∧
    List.Forall₂ (fun t st => st.body = t.body) threads (processThreadsSlim threads true) := by
  refine ⟨?_, buildTranscript_map_body threads maxMessages f, ?_, ?_, rfl, ?_, ?_⟩
  · intro e he
    obtain ⟨t, _, _, _, hbody⟩ := buildTranscript_mem threads maxMessages false e he
    exact hbody
  · intro st hst
    obtain ⟨t, _, rfl⟩ := List.mem_map.mp hst
    rfl
  · intro t ht
    simp only [redactThreadsVerbose, Bool.false_eq_true, if_false] at ht
    obtain ⟨u, _, rfl⟩ := List.mem_map.mp ht
    rfl
  · intro e he
    obtain ⟨t, htm, _, _, hbody⟩ := buildTranscript_mem threads maxMessages true e he
    exact ⟨t, htm, hbody⟩
  · unfold processThreadsSlim
    rw [List.forall₂_map_right_iff]
    exact List.forall₂_same.mpr (fun t _ => rfl)

theorem c10_redaction_policy_witness :
    (∀ e ∈ buildTranscript [sampleThread] 10 false, e.body = hiddenPlaceholder) ∧
    buildTranscript ([sampleThread].map
        (fun t => { t with body := String.append t.body "x" })) 10 false
      = buildTranscript [sampleThread] 10 false ∧
    (∀ st ∈ processThreadsSlim [sampleThread] false, st.body = hiddenPlaceholder) ∧
    (∀ t ∈ redactThreadsVerbose [sampleThread] false, t.body = hiddenPlaceholder) ∧
    allowPiiFromEnv none = true ∧
    (∀ e ∈ buildTranscript [sampleThread] 10 true,
      ∃ t ∈ [sampleThread], e.body = stripHtml (cleanBeaconForm t.body)) ∧
    List.Forall₂ (fun t st => st.body = t.body) [sampleThread]
      (processThreadsSlim [sampleThread] true) :=
  c10_redaction_policy [sampleThread] 10 (fun b => String.append b "x")

/-- C10 counterexample: with content allowed, the slim getThreads projection
passes the thread body through verbatim, HTML tags included — it is not the
HTML-stripped form the claim describes for pass-through bodies. -/
theorem c10_counterexample :
    (processThreadsSlim [sampleThreadMsg] true).map (fun st => st.body) = ["<b>hi</b>"] ∧
    stripHtml "<b>hi</b>" = "hi" ∧
    ¬ ((processThreadsSlim [sampleThreadMsg] true).map (fun st => st.body)
        = [stripHtml "<b>hi</b>"]) := by
  decide

/-- C9: every transcript built from a conversation's threads contains only
dialogue threads (type customer or message, drafts excluded — notes and line
items fail the type test), is sorted by createdAt ascending, holds at most
the caller-specified maximum number of messages, and every entry body is the
thread body run through the Beacon cleanup, HTML stripping and PII redaction
policy (transcriptBody); the schema default for the maximum is 10. -/
theorem c9_transcript_properties (threads : List Thread) (maxMessages : Nat)
    (allowPii : Bool) :
    (buildTranscript threads maxMessages allowPii).length ≤ maxMessages ∧
    List.Pairwise (fun a b : TranscriptEntry => a.date ≤ b.date)
      (buildTranscript threads maxMessages allowPii) ∧
    (∀ e ∈ buildTranscript threads maxMessages allowPii,
      ∃ t ∈ threads, isDialogueThread t = true ∧ e.date = t.createdAt ∧
        e.body = transcriptBody allowPii t.body) ∧
    resolveTranscriptMax none = 10 := by
  refine ⟨?_, ?_, buildTranscript_mem threads maxMessages allowPii, rfl⟩
  · unfold buildTranscript
    rw [List.length_map]
    exact List.length_take_le _ _
  · unfold buildTranscript
    rw [List.pairwise_map]
    have hsorted : List.Sorted byThreadCreatedAsc
        (List.insertionSort byThreadCreatedAsc (threads.filter isDialogueThread)) :=
      List.sorted_insertionSort byThreadCreatedAsc _
    have htake : List.Pairwise byThreadCreatedAsc
        ((List.insertionSort byThreadCreatedAsc
          (threads.filter isDialogueThread)).take maxMessages) :=
      hsorted.sublist (List.take_sublist _ _)
    exact htake.imp (fun h => h)

theorem c9_transcript_properties_witness :
    (buildTranscript [sampleThread, sampleThreadMsg] 1 true).length ≤ 1 ∧
    List.Pairwise (fun a b : TranscriptEntry => a.date ≤ b.date)
      (buildTranscript [sampleThread, sampleThreadMsg] 1 true) ∧
    (∀ e ∈ buildTranscript [sampleThread, sampleThreadMsg] 1 true,
      ∃ t ∈ [sampleThread, sampleThreadMsg], isDialogueThread t = true ∧
        e.date = t.createdAt ∧ e.body = transcriptBody true t.body) ∧
    resolveTranscriptMax none = 10 :=
  c9_transcript_properties [sampleThread, sampleThreadMsg] 1 true

theorem fetchPagesGo_honest (all : List Conversation) (N : Nat) :
    ∀ (budget k total : Nat) (hasMore : Bool),
      (hasMore = false → all.length ≤ 25 * k) →
      N ≤ 25 * (k + budget) →
      ∃ m, (fetchPagesGo (honestUpstream all) N budget (k + 1)
              (all.take (25 * k)) total hasMore).1 = all.take (25 * m) ∧
        (N ≤ (all.take (25 * m)).length ∨ all.length ≤ 25 * m) := by
  intro budget
  induction budget with
  | zero =>
    intro k total hasMore hM hbud
    refine ⟨k, rfl, ?_⟩
    rcases le_or_lt all.length (25 * k) with hle | hlt
    · exact Or.inr hle
    · left
      rw [List.length_take]
      omega
  | succ b ih =>
    intro k total hasMore hM hbud
    simp only [fetchPagesGo]
    by_cases hc : (all.take (25 * k)).length < N ∧ hasMore = true
    · rw [if_pos hc]
      have hacc : all.take (25 * k) ++ (honestUpstream all (k + 1)).records
          = all.take (25 * (k + 1)) := by
        have hrec : (honestUpstream all (k + 1)).records
            = (all.drop (25 * k)).take 25 := by
          simp [honestUpstream]
        rw [hrec, ← List.take_add, Nat.mul_succ]
      have hnext : (honestUpstream all (k + 1)).hasNext
          = decide (25 * (k + 1) < all.length) := rfl
      rw [hacc, hnext]
      have hM' : decide (25 * (k + 1) < all.length) = false →
          all.length ≤ 25 * (k + 1) := by
        intro hd
        have := of_decide_eq_false hd
        omega
      have hbud' : N ≤ 25 * ((k + 1) + b) := by omega
      exact ih (k + 1) _ _ hM' hbud'
    · rw [if_neg hc]
      refine ⟨k, rfl, ?_⟩
      rcases not_and_or.mp hc with hlen | hmore
      · exact Or.inl (le_of_not_lt hlen)
      · refine Or.inr (hM ?_)
        cases hasMore with
        | false => rfl
        | true => exact absurd rfl hmore

/-- C7: against an upstream serving a fixed record list in pages of 25 with a
next link exactly while records remain, the auto-pagination loop of
fetchConversationPages followed by the caller-side slice to the requested
count N delivers exactly the first min(N, available) records — the N-prefix
of the upstream list — and introduces no duplicates (distinct upstream ids
stay distinct). -/
theorem c7_auto_pagination (all : List Conversation) (N : Nat) (_hN : 1 ≤ N) :
    (fetchConversationPages (honestUpstream all) N none).1.take N = all.take N ∧
    ((fetchConversationPages (honestUpstream all) N none).1.take N).length
      = min N all.length ∧
    ((all.map (fun c => c.id)).Nodup →
      (((fetchConversationPages (honestUpstream all) N none).1.take N).map
        (fun c => c.id)).Nodup) := by
  have hdef : fetchConversationPages (honestUpstream all) N none
      = fetchPagesGo (honestUpstream all) N ((N + 24) / 25 + 1) 1 [] 0 true := rfl
  have hmain : (fetchConversationPages (honestUpstream all) N none).1.take N
      = all.take N := by
    rw [hdef]
    have hbud : N ≤ 25 * (0 + ((N + 24) / 25 + 1)) := by
      have h1 := Nat.div_add_mod (N + 24) 25
      have h2 : (N + 24) % 25 < 25 := Nat.mod_lt _ (by norm_num)
      omega
    obtain ⟨m, hm, hdisj⟩ := fetchPagesGo_honest all N ((N + 24) / 25 + 1) 0 0 true
      (fun h => by simp at h) hbud
    have hm' : (fetchPagesGo (honestUpstream all) N ((N + 24) / 25 + 1) 1 [] 0 true).1
        = all.take (25 * m) := by
      simpa using hm
    rw [hm', List.take_take]
    rcases hdisj with hN25 | hlen
    · rw [List.length_take] at hN25
      have hmin : min N (25 * m) = N := by omega
      rw [hmin]
    · rcases le_or_lt N (25 * m) with hNle | hNgt
      · have hmin : min N (25 * m) = N := by omega
        rw [hmin]
      · have hmin : min N (25 * m) = 25 * m := by omega
        rw [hmin, List.take_of_length_le hlen, List.take_of_length_le (by omega)]
  refine ⟨hmain, ?_, ?_⟩
  · rw [hmain, List.length_take]
  · intro hnd
    rw [hmain]
    have hsub : List.Sublist ((all.take N).map (fun c => c.id))
        (all.map (fun c => c.id)) :=
      (List.take_sublist N all).map _
    exact hnd.sublist hsub

theorem c7_auto_pagination_witness :
    (fetchConversationPages
        (honestUpstream [{ id := 1, createdAt := 30 }, { id := 2, createdAt := 20 },
          { id := 3, createdAt := 10 }]) 2 none).1.take 2
      = [{ id := 1, createdAt := 30 }, { id := 2, createdAt := 20 },
          { id := 3, createdAt := 10 }].take 2 ∧
    ((fetchConversationPages
        (honestUpstream [{ id := 1, createdAt := 30 }, { id := 2, createdAt := 20 },
          { id := 3, createdAt := 10 }]) 2 none).1.take 2).length
      = min 2 ([{ id := 1, createdAt := 30 }, { id := 2, createdAt := 20 },
          { id := 3, createdAt := 10 }] : List Conversation).length ∧
    ((([{ id := 1, createdAt := 30 }, { id := 2, createdAt := 20 },
          { id := 3, createdAt := 10 }] : List Conversation).map
        (fun c => c.id)).Nodup →
      (((fetchConversationPages
        (honestUpstream [{ id := 1, createdAt := 30 }, { id := 2, createdAt := 20 },
          { id := 3, createdAt := 10 }]) 2 none).1.take 2).map
        (fun c => c.id)).Nodup) :=
  c7_auto_pagination
    [{ id := 1, createdAt := 30 }, { id := 2, createdAt := 20 },
      { id := 3, createdAt := 10 }] 2 (by norm_num)

theorem keywordMergeGo_benign (branches : List (String × Except Rejection StatusResult))
    (hben : ∀ p ∈ branches, isAbort p.2 = false) :
    ∃ l, keywordMergeGo branches = Except.ok l ∧
      List.Forall₂ (fun (b : String × Except Rejection StatusResult) (r : StatusResult) =>
        match b.2 with
        | Except.ok v => r = v
        | Except.error _ => r = { status := b.1, totalCount := 0, conversations := [] })
        branches l := by
  induction branches with
  | nil => exact ⟨[], rfl, List.Forall₂.nil⟩
  | cons p rest ih =>
    obtain ⟨l, hl, hf⟩ := ih (fun q hq => hben q (List.mem_cons_of_mem p hq))
    obtain ⟨st, outcome⟩ := p
    cases outcome with
    | ok v =>
      refine ⟨v :: l, ?_, List.Forall₂.cons rfl hf⟩
      simp [keywordMergeGo, hl, Except.map]
    | error rej =>
      have hab := hben (st, Except.error rej) (List.mem_cons_self _ _)
      cases rej with
      | other m => simp [isAbort] at hab
      | api e =>
        have hcode : ¬(e.code = ErrorCode.UNAUTHORIZED ∨ e.code = ErrorCode.INVALID_INPUT) := by
          simp [isAbort] at hab
          simpa using hab
        refine ⟨{ status := st, totalCount := 0, conversations := [] } :: l, ?_,
          List.Forall₂.cons rfl hf⟩
        simp [keywordMergeGo, hl, hcode, Except.map]

theorem keywordMergeGo_abort (branches : List (String × Except Rejection StatusResult)) :
    (∃ p ∈ branches, isAbort p.2 = true) →
    ∃ rej, keywordMergeGo branches = Except.error rej := by
  induction branches with
  | nil =>
    rintro ⟨p, hp, _⟩
    cases hp
  | cons q rest ih =>
    rintro ⟨p, hp, hab⟩
    obtain ⟨st, outcome⟩ := q
    cases outcome with
    | ok v =>
      rcases List.mem_cons.mp hp with rfl | hmem
      · simp [isAbort] at hab
      · obtain ⟨rej, hrej⟩ := ih ⟨p, hmem, hab⟩
        exact ⟨rej, by simp [keywordMergeGo, hrej, Except.map]⟩
    | error r =>
      cases r with
      | other m => exact ⟨Rejection.other m, by simp [keywordMergeGo]⟩
      | api e =>
        by_cases hcode : e.code = ErrorCode.UNAUTHORIZED ∨ e.code = ErrorCode.INVALID_INPUT
        · exact ⟨Rejection.api e, by simp [keywordMergeGo, hcode]⟩
        · rcases List.mem_cons.mp hp with rfl | hmem
          · exfalso
            simp [isAbort] at hab
            exact hcode (by simpa using hab)
          · obtain ⟨rej, hrej⟩ := ih ⟨p, hmem, hab⟩
            exact ⟨rej, by simp [keywordMergeGo, hcode, hrej, Except.map]⟩

theorem attachTranscripts_spec (convs : List Conversation)
    (fetch : Nat → Except Rejection (List Thread)) (maxMessages : Nat)
    (allowPii : Bool) :
    List.Forall₂ (fun (c : Conversation) (en : EnrichedConversation) => en.conv = c ∧
      match fetch c.id with
      | Except.ok threads =>
          en.transcript = some (buildTranscript threads maxMessages allowPii) ∧
          en.transcriptError = none
      | Except.error _ =>
          en.transcript = none ∧ en.transcriptError = some "Failed to fetch")
      convs (attachTranscripts convs fetch maxMessages allowPii) := by
  unfold attachTranscripts
  rw [List.forall₂_map_right_iff]
  refine List.forall₂_same.mpr (fun c _ => ?_)
  cases hf : fetch c.id with
  | ok threads => simp [hf]
  | error rej => simp [hf]

theorem pushDedup_spec :
    ∀ (cs : List Conversation) (seen : List Nat) (acc : List Conversation),
      (∀ x, x ∈ seen ↔ x ∈ acc.map (fun c => c.id)) →
      (acc.map (fun c => c.id)).Nodup →
      (∀ x, x ∈ (pushDedup seen acc cs).2 ↔
        x ∈ ((pushDedup seen acc cs).1.map (fun c => c.id))) ∧
      ((pushDedup seen acc cs).1.map (fun c => c.id)).Nodup ∧
      (∀ c ∈ cs, c.id ∈ (pushDedup seen acc cs).1.map (fun c => c.id)) ∧
      (∀ a, a ∈ acc.map (fun c => c.id) →
        a ∈ (pushDedup seen acc cs).1.map (fun c => c.id)) ∧
      (pushDedup seen acc cs).1.length ≤ acc.length + cs.length := by
  intro cs
  induction cs with
  | nil =>
    intro seen acc hinv hnd
    refine ⟨hinv, hnd, ?_, fun a ha => ha, by simp [pushDedup]⟩
    intro c hc
    cases hc
  | cons c cs ih =>
    intro seen acc hinv hnd
    by_cases hmem : c.id ∈ seen
    · have heq : pushDedup seen acc (c :: cs) = pushDedup seen acc cs := by
        simp [pushDedup, hmem]
      rw [heq]
      obtain ⟨h1, h2, h3, h4, h5⟩ := ih seen acc hinv hnd
      refine ⟨h1, h2, ?_, h4, by simp only [List.length_cons]; omega⟩
      intro d hd
      rcases List.mem_cons.mp hd with rfl | hdm
      · exact h4 d.id ((hinv d.id).mp hmem)
      · exact h3 d hdm
    · have heq : pushDedup seen acc (c :: cs) = pushDedup (c.id :: seen) (acc ++ [c]) cs := by
        simp [pushDedup, hmem]
      rw [heq]
      have hcn : c.id ∉ acc.map (fun c => c.id) := fun hc => hmem ((hinv c.id).mpr hc)
      have hinv' : ∀ x, x ∈ (c.id :: seen) ↔
          x ∈ ((acc ++ [c]).map (fun c => c.id)) := by
        intro x
        simp only [List.mem_cons, List.map_append, List.mem_append, List.map_cons,
          List.map_nil, hinv x]
        tauto
      have hnd' : ((acc ++ [c]).map (fun c => c.id)).Nodup := by
        simp only [List.map_append, List.map_cons, List.map_nil]
        simp [List.nodup_append, hnd, hcn]
      obtain ⟨h1, h2, h3, h4, h5⟩ := ih (c.id :: seen) (acc ++ [c]) hinv' hnd'
      refine ⟨h1, h2, ?_, ?_, ?_⟩
      · intro d hd
        rcases List.mem_cons.mp hd with rfl | hdm
        · exact h4 d.id (by simp)
        · exact h3 d hdm
      · intro a ha
        exact h4 a (by simp [ha])
      · simp only [List.length_append, List.length_cons, List.length_nil] at h5
        simp only [List.length_cons]
        omega

theorem listMergeGo_spec :
    ∀ (branches : List (String × Except Rejection FetchOut))
      (seen : List Nat) (acc : List Conversation) (totalAvail : Nat)
      (failed : List FailedStatus),
      (∀ p ∈ branches, isAbort p.2 = false) →
      (∀ x, x ∈ seen ↔ x ∈ acc.map (fun c => c.id)) →
      (acc.map (fun c => c.id)).Nodup →
      ∃ convs tot fl,
        listMergeGo seen acc totalAvail failed branches = Except.ok (convs, tot, fl) ∧
        (convs.map (fun c => c.id)).Nodup ∧
        (∀ a, a ∈ acc.map (fun c => c.id) → a ∈ convs.map (fun c => c.id)) ∧
        (∀ p ∈ branches, ∀ out : FetchOut, p.2 = Except.ok out →
          ∀ c ∈ out.conversations, c.id ∈ convs.map (fun c => c.id)) ∧
        (∀ g ∈ failed, g ∈ fl) ∧
        (∀ p ∈ branches, ∀ rej, p.2 = Except.error rej →
          p.1 ∈ fl.map (fun f => f.status)) ∧
        convs.length ≤ acc.length + totalFetchedLen branches := by
  intro branches
  induction branches with
  | nil =>
    intro seen acc totalAvail failed _ _ hnd
    refine ⟨acc, totalAvail, failed, rfl, hnd, fun a ha => ha, ?_, fun g hg => hg, ?_, ?_⟩
    · intro p hp
      cases hp
    · intro p hp
      cases hp
    · simp [totalFetchedLen]
  | cons q rest ih =>
    intro seen acc totalAvail failed hben hinv hnd
    obtain ⟨st, outcome⟩ := q
    cases outcome with
    | ok out =>
      obtain ⟨p1, p2, p3, p4, p5⟩ := pushDedup_spec out.conversations seen acc hinv hnd
      obtain ⟨convs, tot, fl, hgo, hnodup, hpres, hcompl, hfailsub, hfailmem, hlen⟩ :=
        ih (pushDedup seen acc out.conversations).2 (pushDedup seen acc out.conversations).1
          (totalAvail + out.totalElements) failed
          (fun p hp => hben p (List.mem_cons_of_mem _ hp)) p1 p2
      refine ⟨convs, tot, fl, hgo, hnodup, ?_, ?_, hfailsub, ?_, ?_⟩
      · intro a ha
        exact hpres a (p4 a ha)
      · intro p hp outP houtP c hc
        rcases List.mem_cons.mp hp with heq | hmem
        · subst heq
          have : outP = out := by
            simpa using houtP.symm
          subst this
          exact hpres c.id (p3 c hc)
        · exact hcompl p hmem outP houtP c hc
      · intro p hp rej hrej
        rcases List.mem_cons.mp hp with heq | hmem
        · subst heq
          simp at hrej
        · exact hfailmem p hmem rej hrej
      · have htf : totalFetchedLen ((st, Except.ok out) :: rest)
            = out.conversations.length + totalFetchedLen rest := by
          simp [totalFetchedLen]
        omega
    | error rej =>
      have hab := hben (st, Except.error rej) (List.mem_cons_self _ _)
      cases rej with
      | other m => simp [isAbort] at hab
      | api e =>
        have hcode : ¬(e.code = ErrorCode.UNAUTHORIZED ∨ e.code = ErrorCode.INVALID_INPUT) := by
          simp [isAbort] at hab
          simpa using hab
        obtain ⟨convs, tot, fl, hgo, hnodup, hpres, hcompl, hfailsub, hfailmem, hlen⟩ :=
          ih seen acc totalAvail (failed ++ [⟨st, e.message, e.code⟩])
            (fun p hp => hben p (List.mem_cons_of_mem _ hp)) hinv hnd
        refine ⟨convs, tot, fl, ?_, hnodup, hpres, ?_, ?_, ?_, ?_⟩
        · simpa [listMergeGo, hcode] using hgo
        · intro p hp outP houtP c hc
          rcases List.mem_cons.mp hp with heq | hmem
          · subst heq
            simp at houtP
          · exact hcompl p hmem outP houtP c hc
        · intro g hg
          exact hfailsub g (by simp [hg])
        · intro p hp rejP hrejP
          rcases List.mem_cons.mp hp with heq | hmem
          · subst heq
            have hin : (⟨st, e.message, e.code⟩ : FailedStatus) ∈ fl :=
              hfailsub _ (by simp)
            exact List.mem_map.mpr ⟨_, hin, rfl⟩
          · exact hfailmem p hmem rejP hrejP
        · have htf : totalFetchedLen ((st, Except.error (Rejection.api e)) :: rest)
              = totalFetchedLen rest := by
            simp [totalFetchedLen]
          omega

theorem listMergeGo_abort :
    ∀ (branches : List (String × Except Rejection FetchOut))
      (seen : List Nat) (acc : List Conversation) (totalAvail : Nat)
      (failed : List FailedStatus),
      (∃ p ∈ branches, isAbort p.2 = true) →
      ∃ rej, listMergeGo seen acc totalAvail failed branches = Except.error rej := by
  intro branches
  induction branches with
  | nil =>
    rintro seen acc totalAvail failed ⟨p, hp, _⟩
    cases hp
  | cons q rest ih =>
    rintro seen acc totalAvail failed ⟨p, hp, hab⟩
    obtain ⟨st, outcome⟩ := q
    cases outcome with
    | ok out =>
      rcases List.mem_cons.mp hp with rfl | hmem
      · simp [isAbort] at hab
      · obtain ⟨rej, hrej⟩ := ih (pushDedup seen acc out.conversations).2
          (pushDedup seen acc out.conversations).1 (totalAvail + out.totalElements)
          failed ⟨p, hmem, hab⟩
        exact ⟨rej, by simpa [listMergeGo] using hrej⟩
    | error r =>
      cases r with
      | other m => exact ⟨Rejection.other m, by simp [listMergeGo]⟩
      | api e =>
        by_cases hcode : e.code = ErrorCode.UNAUTHORIZED ∨ e.code = ErrorCode.INVALID_INPUT
        · exact ⟨Rejection.api e, by simp [listMergeGo, hcode]⟩
        · rcases List.mem_cons.mp hp with rfl | hmem
          · exfalso
            simp [isAbort] at hab
            exact hcode (by simpa using hab)
          · obtain ⟨rej, hrej⟩ := ih seen acc totalAvail
              (failed ++ [⟨st, e.message, e.code⟩]) ⟨p, hmem, hab⟩
            exact ⟨rej, by simpa [listMergeGo, hcode] using hrej⟩

theorem listMerge_benign_ok (branches : List (String × Except Rejection FetchOut))
    (effectiveLimit : Nat) (hben : ∀ p ∈ branches, isAbort p.2 = false) :
    ∃ lok, listMerge branches effectiveLimit = Except.ok lok ∧
      (∀ p ∈ branches, ∀ rej, p.2 = Except.error rej →
        p.1 ∈ lok.pagination.errors.map (fun f => f.status)) := by
  obtain ⟨convs, tot, fl, hgo, _, _, _, _, hfailmem, _⟩ :=
    listMergeGo_spec branches [] [] 0 [] hben (by simp) (by simp)
  have hlm : listMerge branches effectiveLimit = Except.ok
      { conversations := (if effectiveLimit < (sortByCreatedDesc convs).length
          then (sortByCreatedDesc convs).take effectiveLimit
          else sortByCreatedDesc convs),
        searchedStatuses := (if fl.length > 0 then
            (branches.map (fun b => b.1)).filter
              (fun s => ¬ fl.any (fun f => f.status == s))
          else branches.map (fun b => b.1)),
        pagination := { returned := some ((if effectiveLimit < (sortByCreatedDesc convs).length
                              then (sortByCreatedDesc convs).take effectiveLimit
                              else sortByCreatedDesc convs).length),
                        totalAvailable := some tot,
                        errors := fl } } := by
    simp only [listMerge, hgo, Except.map]
  exact ⟨_, hlm, fun p hp rej hrej => hfailmem p hp rej hrej⟩

/-- C2 (amended): in both per-status search joins — keyword and list mode —
a branch failure with a benign API error (an ApiError whose code is not
UNAUTHORIZED or INVALID_INPUT) is folded into the aggregate without
cancelling or failing sibling branches: the keyword merge succeeds and pairs
every fulfilled branch with its own result and every failed branch with an
empty-status group, and the list merge succeeds and records every failed
status as a marker in the pagination errors; when any branch carries an
abort-class rejection (UNAUTHORIZED, INVALID_INPUT, or a non-API error)
either merge rejects the whole call; the per-conversation transcript join,
by contrast, folds every branch failure — abort-class errors included —
into a transcript-error placeholder and never propagates. -/
theorem c2_fanout_containment (branches : List (String × Except Rejection StatusResult))
    (lbranches : List (String × Except Rejection FetchOut)) (effectiveLimit : Nat)
    (convs : List Conversation) (fetch : Nat → Except Rejection (List Thread))
    (maxMessages : Nat) (allowPii : Bool)
    (hben : ∀ p ∈ branches, isAbort p.2 = false)
    (hben2 : ∀ p ∈ lbranches, isAbort p.2 = false) :
    (∃ res, keywordMerge branches = Except.ok res ∧
      List.Forall₂ (fun (b : String × Except Rejection StatusResult) (g : StatusGroup) =>
        match b.2 with
        | Except.ok r => g = ⟨r.status, r.conversations.length, r.totalCount,
            r.conversations⟩
        | Except.error _ => g = ⟨b.1, 0, 0, []⟩)
        branches res.resultsByStatus) ∧
    (∀ branches2 : List (String × Except Rejection StatusResult),
      (∃ p ∈ branches2, isAbort p.2 = true) →
      ∃ rej, keywordMerge branches2 = Except.error rej) ∧
    (∃ lok, listMerge lbranches effectiveLimit = Except.ok lok ∧
      (∀ p ∈ lbranches, ∀ rej, p.2 = Except.error rej →
        p.1 ∈ lok.pagination.errors.map (fun f => f.status))) ∧
    (∀ (lbranches2 : List (String × Except Rejection FetchOut)) (limit2 : Nat),
      (∃ p ∈ lbranches2, isAbort p.2 = true) →
      ∃ rej, listMerge lbranches2 limit2 = Except.error rej) ∧
    List.Forall₂ (fun (c : Conversation) (en : EnrichedConversation) => en.conv = c ∧
      match fetch c.id with
      | Except.ok threads =>
          en.transcript = some (buildTranscript threads maxMessages allowPii) ∧
          en.transcriptError = none
      | Except.error _ =>
          en.transcript = none ∧ en.transcriptError = some "Failed to fetch")
      convs (attachTranscripts convs fetch maxMessages allowPii) := by
  refine ⟨?_, ?_, listMerge_benign_ok lbranches effectiveLimit hben2, ?_,
    attachTranscripts_spec convs fetch maxMessages allowPii⟩
  · obtain ⟨l, hl, hf⟩ := keywordMergeGo_benign branches hben
    have hkm : keywordMerge branches = Except.ok
        { totalConversationsFound := (l.map (fun r => r.conversations.length)).sum
          totalAvailable := (l.map (fun r => r.totalCount)).sum
          resultsByStatus := l.map (fun r =>
            { status := r.status, count := r.conversations.length,
              totalAvailable := r.totalCount, conversations := r.conversations }) } := by
      simp [keywordMerge, hl, Except.map]
    refine ⟨_, hkm, ?_⟩
    rw [List.forall₂_map_right_iff]
    refine hf.imp (fun b r h => ?_)
    cases ho : b.2 with
    | ok v =>
      simp only [ho] at h
      subst h
      simp only [ho]
    | error rej =>
      simp only [ho] at h
      subst h
      simp only [ho]
      rfl
  · intro branches2 habort
    obtain ⟨rej, hrej⟩ := keywordMergeGo_abort branches2 habort
    exact ⟨rej, by simp [keywordMerge, hrej, Except.map]⟩
  · intro lbranches2 limit2 habort
    obtain ⟨rej, hrej⟩ := listMergeGo_abort lbranches2 [] [] 0 [] habort
    exact ⟨rej, by simp [listMerge, hrej, Except.map]⟩

theorem c2_fanout_containment_witness :
    (∃ res, keywordMerge sampleKeywordBranches = Except.ok res ∧
      List.Forall₂ (fun (b : String × Except Rejection StatusResult) (g : StatusGroup) =>
        match b.2 with
        | Except.ok r => g = ⟨r.status, r.conversations.length, r.totalCount,
            r.conversations⟩
        | Except.error _ => g = ⟨b.1, 0, 0, []⟩)
        sampleKeywordBranches res.resultsByStatus) ∧
    (∀ branches2 : List (String × Except Rejection StatusResult),
      (∃ p ∈ branches2, isAbort p.2 = true) →
      ∃ rej, keywordMerge branches2 = Except.error rej) ∧
    (∃ lok, listMerge sampleListBranches 50 = Except.ok lok ∧
      (∀ p ∈ sampleListBranches, ∀ rej, p.2 = Except.error rej →
        p.1 ∈ lok.pagination.errors.map (fun f => f.status))) ∧
    (∀ (lbranches2 : List (String × Except Rejection FetchOut)) (limit2 : Nat),
      (∃ p ∈ lbranches2, isAbort p.2 = true) →
      ∃ rej, listMerge lbranches2 limit2 = Except.error rej) ∧
    List.Forall₂ (fun (c : Conversation) (en : EnrichedConversation) => en.conv = c ∧
      match (fun _ : Nat => (Except.ok [sampleThread] : Except Rejection (List Thread))) c.id with
      | Except.ok threads =>
          en.transcript = some (buildTranscript threads 10 true) ∧
          en.transcriptError = none
      | Except.error _ =>
          en.transcript = none ∧ en.transcriptError = some "Failed to fetch")
      [sampleConvA]
      (attachTranscripts [sampleConvA]
        (fun _ => Except.ok [sampleThread]) 10 true) :=
  c2_fanout_containment sampleKeywordBranches sampleListBranches 50 [sampleConvA]
    (fun _ => Except.ok [sampleThread]) 10 true (by decide) (by decide)

/-- C2 counterexample: a transcript branch rejected with an UNAUTHORIZED
ApiError — an abort-class error, which the claim says must propagate and
abort the entire call — is instead folded into a transcript-error
placeholder: attachTranscripts returns normally with the placeholder entry. -/
theorem c2_counterexample :
    isAbort (Except.error (Rejection.api ⟨ErrorCode.UNAUTHORIZED, "401"⟩)
      : Except Rejection (List Thread)) = true ∧
    attachTranscripts [sampleConvA]
        (fun _ => Except.error (Rejection.api ⟨ErrorCode.UNAUTHORIZED, "401"⟩)) 10 true
      = [{ conv := sampleConvA, transcript := none,
           transcriptError := some "Failed to fetch" }] := by
  refine ⟨rfl, rfl⟩

/-- C1 counterexample: a keyword-mode multi-status call in which one status
fails with a benign API error and the two succeeding statuses both return
conversation id 1 produces a merged result whose records are grouped per
status and still contain id 1 twice — the ids are not deduplicated across
statuses (and the concatenated records, created at 100 then 200, are not in
createdAt-descending order). -/
theorem c1_counterexample :
    exceptIsOk (keywordMerge dupKeywordBranches) = true ∧
    isAbort (Except.error (Rejection.api ⟨ErrorCode.RATE_LIMIT, "Rate limited"⟩)
      : Except Rejection StatusResult) = false ∧
    keywordMergeIds dupKeywordBranches = [1, 1] ∧
    ¬ (keywordMergeIds dupKeywordBranches).Nodup := by
  decide

/-- C1 (amended): for a list-mode (searchConversationsList) multi-status call
whose failing branches all carry benign API errors, the merge succeeds: the
result is sorted by createdAt descending with no duplicate conversation ids,
every failed status has an explicit marker in the pagination errors array,
and — whenever the records fetched by the succeeding statuses fit within the
effective limit, the source truncating the merged list to that limit
otherwise — the result contains every succeeding status record id.  (The
keyword path keeps records grouped per status without cross-status
deduplication or a global sort — see the counterexample — and its failed
statuses appear as empty groups.) -/
theorem c1_multi_status_merge (branches : List (String × Except Rejection FetchOut))
    (effectiveLimit : Nat)
    (hben : ∀ p ∈ branches, isAbort p.2 = false) :
    ∃ ok, listMerge branches effectiveLimit = Except.ok ok ∧
      List.Pairwise byCreatedDesc ok.conversations ∧
      (ok.conversations.map (fun c => c.id)).Nodup ∧
      (∀ p ∈ branches, ∀ rej, p.2 = Except.error rej →
        p.1 ∈ ok.pagination.errors.map (fun f => f.status)) ∧
      (totalFetchedLen branches ≤ effectiveLimit →
        ∀ p ∈ branches, ∀ out : FetchOut, p.2 = Except.ok out →
          ∀ c ∈ out.conversations, c.id ∈ ok.conversations.map (fun c => c.id)) := by
  obtain ⟨convs, tot, fl, hgo, hnodup, _, hcompl, _, hfailmem, hlen⟩ :=
    listMergeGo_spec branches [] [] 0 [] hben (by simp) (by simp)
  have hperm : List.Perm (sortByCreatedDesc convs) convs :=
    List.perm_insertionSort byCreatedDesc convs
  have hlm : listMerge branches effectiveLimit = Except.ok
      { conversations := (if effectiveLimit < (sortByCreatedDesc convs).length
          then (sortByCreatedDesc convs).take effectiveLimit
          else sortByCreatedDesc convs),
        searchedStatuses := (if fl.length > 0 then
            (branches.map (fun b => b.1)).filter
              (fun s => ¬ fl.any (fun f => f.status == s))
          else branches.map (fun b => b.1)),
        pagination := { returned := some ((if effectiveLimit < (sortByCreatedDesc convs).length
                              then (sortByCreatedDesc convs).take effectiveLimit
                              else sortByCreatedDesc convs).length),
                        totalAvailable := some tot,
                        errors := fl } } := by
    simp only [listMerge, hgo, Except.map]
  have hsub : List.Sublist (if effectiveLimit < (sortByCreatedDesc convs).length
      then (sortByCreatedDesc convs).take effectiveLimit
      else sortByCreatedDesc convs) (sortByCreatedDesc convs) := by
    split
    · exact List.take_sublist _ _
    · exact List.Sublist.refl _
  refine ⟨_, hlm, ?_, ?_, ?_, ?_⟩
  · exact (List.sorted_insertionSort byCreatedDesc convs).sublist hsub
  · have hs : ((sortByCreatedDesc convs).map (fun c => c.id)).Nodup :=
      ((hperm.map (fun c => c.id)).nodup_iff).mpr hnodup
    exact hs.sublist (hsub.map _)
  · intro p hp rej hrej
    exact hfailmem p hp rej hrej
  · intro hcap p hp out hout c hc
    have hlenlim : ¬ (effectiveLimit < (sortByCreatedDesc convs).length) := by
      rw [hperm.length_eq]
      simp only [List.length_nil, Nat.zero_add] at hlen
      omega
    show c.id ∈ ((if effectiveLimit < (sortByCreatedDesc convs).length
      then (sortByCreatedDesc convs).take effectiveLimit
      else sortByCreatedDesc convs).map (fun c => c.id))
    rw [if_neg hlenlim]
    exact ((hperm.map (fun c => c.id)).mem_iff).mpr (hcompl p hp out hout c hc)

theorem c1_multi_status_merge_witness :
    ∃ ok, listMerge sampleListBranches 50 = Except.ok ok ∧
      List.Pairwise byCreatedDesc ok.conversations ∧
      (ok.conversations.map (fun c => c.id)).Nodup ∧
      (∀ p ∈ sampleListBranches, ∀ rej, p.2 = Except.error rej →
        p.1 ∈ ok.pagination.errors.map (fun f => f.status)) ∧
      (totalFetchedLen sampleListBranches ≤ 50 →
        ∀ p ∈ sampleListBranches, ∀ out : FetchOut, p.2 = Except.ok out →
          ∀ c ∈ out.conversations, c.id ∈ ok.conversations.map (fun c => c.id)) :=
  c1_multi_status_merge sampleListBranches 50 (by decide)

/-- C3 (amended): the client-side createdBefore filter is sound — no record
with createdAt at or past the bound survives applyCreatedBeforeFilter, the
function all three search modes funnel through — and in the multi-status
list path, when the filter removed records, the rebuilt pagination exposes
both the post-filter count (totalResults) and the pre-filter upstream total
(totalAvailable), which differ whenever the upstream total covers the
fetched records.  (The keyword path replaces its reported total with the
post-filter count — see the counterexample — the structured path reports
only a returned count, and the single-status list path loses the pre-filter
total to a field-name mismatch at the buildFilteredPagination call site.) -/
theorem c3_created_before_filter (convs : List Conversation) (bound : Int)
    (pag : Pagination) (ta : Nat)
    (hta : pag.totalAvailable = some ta) (hle : convs.length ≤ ta)
    (hfil : (applyCreatedBeforeFilter convs bound).wasFiltered = true) :
    (∀ c ∈ (applyCreatedBeforeFilter convs bound).filtered, c.createdAt < bound) ∧
    (∀ c ∈ (listApplyCreatedBefore convs pag false (some bound)).conversations,
      c.createdAt < bound) ∧
    (listApplyCreatedBefore convs pag false (some bound)).pagination.totalResults
      = some (applyCreatedBeforeFilter convs bound).filtered.length ∧
    (listApplyCreatedBefore convs pag false (some bound)).pagination.totalAvailable
      = some ta ∧
    (applyCreatedBeforeFilter convs bound).filtered.length < ta := by
  have hsound : ∀ c ∈ (applyCreatedBeforeFilter convs bound).filtered,
      c.createdAt < bound := by
    intro c hc
    have hmem : c ∈ convs.filter (fun conv => conv.createdAt < bound) := hc
    simpa using (List.mem_filter.mp hmem).2
  have hlen_le : (convs.filter (fun conv => conv.createdAt < bound)).length
      ≤ convs.length := List.length_filter_le _ _
  have hlen_lt : (applyCreatedBeforeFilter convs bound).filtered.length
      < convs.length := by
    have h := hfil
    simp only [applyCreatedBeforeFilter, gt_iff_lt, decide_eq_true_eq] at h
    have hfe : (applyCreatedBeforeFilter convs bound).filtered.length
        = (convs.filter (fun conv => conv.createdAt < bound)).length := rfl
    omega
  have hstep : listApplyCreatedBefore convs pag false (some bound) =
      ⟨(applyCreatedBeforeFilter convs bound).filtered,
        { totalResults := some (applyCreatedBeforeFilter convs bound).filtered.length
          totalAvailable := pag.totalAvailable
          errors := pag.errors
          note := some "Client-side createdBefore filter applied to merged results." },
        true⟩ := by
    simp [listApplyCreatedBefore, hfil]
  refine ⟨hsound, ?_, ?_, ?_, ?_⟩
  · rw [hstep]
    exact hsound
  · rw [hstep]
  · rw [hstep]
    simpa using hta
  · omega

theorem c3_created_before_filter_witness :
    (∀ c ∈ (applyCreatedBeforeFilter
        [{ id := 1, createdAt := 5 }, { id := 2, createdAt := 15 }] 10).filtered,
      c.createdAt < 10) ∧
    (∀ c ∈ (listApplyCreatedBefore
        [{ id := 1, createdAt := 5 }, { id := 2, createdAt := 15 }]
        { returned := some 2, totalAvailable := some 2 } false (some 10)).conversations,
      c.createdAt < 10) ∧
    (listApplyCreatedBefore
        [{ id := 1, createdAt := 5 }, { id := 2, createdAt := 15 }]
        { returned := some 2, totalAvailable := some 2 } false
        (some 10)).pagination.totalResults
      = some (applyCreatedBeforeFilter
        [{ id := 1, createdAt := 5 }, { id := 2, createdAt := 15 }] 10).filtered.length ∧
    (listApplyCreatedBefore
        [{ id := 1, createdAt := 5 }, { id := 2, createdAt := 15 }]
        { returned := some 2, totalAvailable := some 2 } false
        (some 10)).pagination.totalAvailable = some 2 ∧
    (applyCreatedBeforeFilter
        [{ id := 1, createdAt := 5 }, { id := 2, createdAt := 15 }] 10).filtered.length
      < 2 :=
  c3_created_before_filter
    [{ id := 1, createdAt := 5 }, { id := 2, createdAt := 15 }] 10
    { returned := some 2, totalAvailable := some 2 } 2 rfl (by decide) (by decide)

end HelpScoutMcp
